import Mathlib

/-!
Verification of the callable-classification registry in
`torch/_dynamo/allowed_functions.py`.

The embedding models:
* Python `dict[int, str]` keyed by object identities as an association list
  with insertion-order append and in-place overwrite (`NameMap`);
* the namespace graph walked by `_find_torch_objects` as a finite map from
  module identity to a node carrying `__name__` and `__dict__` items;
* the lazily initialized `FunctionIdSet` produced by `make_function_id_set`;
* the registry state (`_allowed_function_ids`, `_disallowed_function_ids`,
  and the `_dynamo_forbidden` attribute bits) with the public operations
  `is_allowed`, `torch_get_name`, `allow_in_graph`,
  `_disallow_in_graph_helper` / `disallow_in_graph`, `forbid_in_graph`.

Python exceptions are modelled with `Except`; raising leaves the
already-performed mutations in place, exactly as in the source.
-/

namespace AllowedFunctions

/-! ### Python dicts keyed by `id()` -/

/-- A Python `dict[int, str]`: association list without duplicate keys,
insertion order preserved, assignment overwrites in place. -/
abbrev NameMap := List (Nat × String)

/-- `k in d` for a Python dict. -/
def dictMem : NameMap → Nat → Bool
  | [], _ => false
  | p :: t, k => p.1 == k || dictMem t k

/-- Lookup of the value stored at key `k`. -/
def dictFind : NameMap → Nat → Option String
  | [], _ => none
  | p :: t, k => if p.1 == k then some p.2 else dictFind t k

/-- `d.get(k, default)`. -/
def dictGetD (m : NameMap) (k : Nat) (d : String) : String :=
  (dictFind m k).getD d

/-- `d[k] = v`: overwrite in place if the key is present, append otherwise. -/
def dictInsert : NameMap → Nat → String → NameMap
  | [], k, v => [(k, v)]
  | p :: t, k, v => if p.1 == k then (k, v) :: t else p :: dictInsert t k v

/-- The key set of a dict. -/
def dictKeys (m : NameMap) : Finset Nat :=
  (m.map Prod.fst).toFinset

/-! ### The namespace graph walked by `_find_torch_objects` -/

/-- A child binding in a module's `__dict__`.  `module` children reference
their node by identity (the graph may be cyclic, so modules cannot be
inlined).  A `plain` child carries `id(obj)`, the `__name__` of the module
returned by `inspect.getmodule(obj)` (`none` when that call returns `None`),
and the value of `is_safe_constant(obj)` (that predicate lives in
`torch/_dynamo/utils.py`, which is not part of this excerpt; it is modelled
from the spec: a fixed boolean attribute of the object deciding whether it
is a known safe constant). -/
inductive PyChild where
  | module (nid : Nat)
  | plain (oid : Nat) (modName : Option String) (safeConst : Bool)
deriving DecidableEq

/-- `id()` of the child object. -/
def PyChild.oid : PyChild → Nat
  | .module nid => nid
  | .plain oid _ _ => oid

/-- A module object: its `__name__` and the snapshot of
`list(module.__dict__.items())`. -/
structure NSNode where
  name : String
  dict : List (String × PyChild)
deriving DecidableEq

/-- The namespace graph: module identity to module object.  Cycles are
expressed by a child referencing an ancestor's identity. -/
structure NSGraph where
  nodes : List (Nat × NSNode)
deriving DecidableEq

/-- Resolve a module identity. -/
def NSGraph.lookup (g : NSGraph) (i : Nat) : Option NSNode :=
  (g.nodes.find? (fun p => p.1 == i)).map Prod.snd

/-- The finite set of module identities in the graph. -/
def NSGraph.ids (g : NSGraph) : Finset Nat :=
  (g.nodes.map Prod.fst).toFinset

/-- Python's `str.startswith(p)`: `p`'s characters are a prefix of `s`'s. -/
def strStartsWith (s p : String) : Bool := p.toList.isPrefixOf s.toList

/-- The hard-coded `allowed_modules` tuple of `_is_allowed_module_prefix`. -/
def allowed_modules : List String := ["torch", "math"]

/-- The hard-coded `disallowed_modules` tuple of `_is_allowed_module_prefix`. -/
def disallowed_modules : List String :=
  ["torch.optim.", "torch.nn.modules.rnn.", "torch._dynamo.",
   "torch._C._dynamo.", "torch._inductor.", "torch._C.inductor.",
   "torch.fx.", "torch.distributed.fsdp."]

/-- `_is_allowed_module_prefix` applied to an object whose
`inspect.getmodule` has the given `__name__` (for a module object,
`inspect.getmodule` returns the module itself, so this is applied to the
module's own name). -/
def allowedModulePrefixName (modName : String) : Bool :=
  if disallowed_modules.any (fun m => strStartsWith modName m) then false
  else
    decide (modName ∈ allowed_modules) ||
      allowed_modules.any (fun m => strStartsWith modName (m ++ "."))

/-- `_is_allowed_module_prefix` applied to a plain (non-module) object:
`inspect.getmodule(obj) is None` returns `False`. -/
def allowedModulePrefixOpt : Option String → Bool
  | none => false
  | some n => allowedModulePrefixName n

/-- One child-binding step of the loop body of `_find_torch_objects`,
threading the shared `torch_object_ids` dict (`none` = the fuel of a nested
recursive call ran out; never happens with enough fuel).  `fuel` is the fuel
handed to nested `_find_torch_objects` calls and `mname` is the enclosing
module's `__name__`.  Declared via `findAux`; bundled as `childStep` below. -/
def findAux (g : NSGraph) (pol : List String) : Nat → Nat → NameMap → Option NameMap
  | 0, _, _ => none
  | fuel + 1, nid, acc =>
    match g.lookup nid with
    | none => some acc
    | some node =>
      if pol.any (fun p => strStartsWith node.name p) then some acc
      else
        node.dict.foldl
          (fun racc c =>
            match racc with
            | none => none
            | some acc₁ =>
              if dictMem acc₁ c.2.oid then some acc₁
              else
                match c.2 with
                | .module cnid =>
                  match g.lookup cnid with
                  | none => some acc₁
                  | some cnode =>
                    if strStartsWith cnode.name "torch." &&
                        allowedModulePrefixName cnode.name then
                      findAux g pol fuel cnid
                        (dictInsert acc₁ cnid (node.name ++ "." ++ c.1))
                    else some acc₁
                | .plain oid modName safeConst =>
                  if allowedModulePrefixOpt modName then
                    some (dictInsert acc₁ oid (node.name ++ "." ++ c.1))
                  else if modName.isNone && !safeConst then
                    some (dictInsert acc₁ oid (node.name ++ "." ++ c.1))
                  else some acc₁)
          (some (dictInsert acc nid node.name))

/-- The loop body of `_find_torch_objects` as a named function, for stating
lemmas about the fold. -/
def childStep (g : NSGraph) (pol : List String) (fuel : Nat) (mname : String)
    (racc : Option NameMap) (c : String × PyChild) : Option NameMap :=
  match racc with
  | none => none
  | some acc₁ =>
    if dictMem acc₁ c.2.oid then some acc₁
    else
      match c.2 with
      | .module cnid =>
        match g.lookup cnid with
        | none => some acc₁
        | some cnode =>
          if strStartsWith cnode.name "torch." &&
              allowedModulePrefixName cnode.name then
            findAux g pol fuel cnid (dictInsert acc₁ cnid (mname ++ "." ++ c.1))
          else some acc₁
      | .plain oid modName safeConst =>
        if allowedModulePrefixOpt modName then
          some (dictInsert acc₁ oid (mname ++ "." ++ c.1))
        else if modName.isNone && !safeConst then
          some (dictInsert acc₁ oid (mname ++ "." ++ c.1))
        else some acc₁

/-- `_find_torch_objects(root)` run with enough fuel for the cycle-guarded
recursion (one unit per module identity, plus one). -/
def findTorchObjects (g : NSGraph) (pol : List String) (root : Nat) : Option NameMap :=
  findAux g pol (g.ids.card + 1) root []

/-! ### Termination of the discovery pass

The recursion of `_find_torch_objects` only descends into a module whose
identity is not yet recorded in `torch_object_ids`, and records it before
descending, so the number of unrecorded module identities strictly decreases
across nested calls.  `missing` is that measure, and the joint induction
below shows the fuel `g.ids.card + 1` never runs out. -/

/-- Number of module identities not yet recorded. -/
def missing (g : NSGraph) (m : NameMap) : Nat :=
  (g.ids \ dictKeys m).card

/-! ### `make_function_id_set` / `FunctionIdSet` -/

/-- A Python exception escaping one of the registry operations. -/
inductive PyErr where
  | assertionError (msg : String)
  | incorrectUsage (msg : String)
  | attributeError (msg : String)
deriving DecidableEq

/-- The value returned by a lazy initializer: either a `dict` of
identity to qualified name, or a plain `set` of identities. -/
inductive InitValue where
  | dict (m : NameMap)
  | set (s : Finset Nat)

/-- The mutable state of one `FunctionIdSet` instance: `function_ids` and
`function_names`, both `None` before the first (lazy) initialization.
When the initializer returns a plain set, `function_names` stays `None`. -/
structure FunctionIdSet where
  function_ids : Option (Finset Nat)
  function_names : Option NameMap
deriving DecidableEq

/-- A freshly constructed `FunctionIdSet` (both fields `None`). -/
def FunctionIdSet.fresh : FunctionIdSet := ⟨none, none⟩

/-- `self()`: lazy initialization; returns the id set and the updated
instance state.  `v` is the value the instance's `lazy_initializer` returns. -/
def FunctionIdSet.call (v : InitValue) (s : FunctionIdSet) :
    Finset Nat × FunctionIdSet :=
  match s.function_ids with
  | some ids => (ids, s)
  | none =>
    match v with
    | .dict m => (dictKeys m, ⟨some (dictKeys m), some m⟩)
    | .set ids => (ids, ⟨some ids, s.function_names⟩)

/-- `get_name(idx, default)`: lazy init, then `self.function_names.get`.
When `function_names` is still `None` (set-initialized instance) the
attribute access `.get` on `None` raises `AttributeError`. -/
def FunctionIdSet.get_name (v : InitValue) (idx : Nat) (dflt : String)
    (s : FunctionIdSet) : Except PyErr String × FunctionIdSet :=
  let r := s.call v
  match r.2.function_names with
  | none => (.error (.attributeError "NoneType object has no attribute get"), r.2)
  | some m => (.ok (dictGetD m idx dflt), r.2)

/-- `add(idx)`: lazy init, then insert into `function_ids`
(`function_names` is not touched). -/
def FunctionIdSet.add (v : InitValue) (idx : Nat) (s : FunctionIdSet) :
    FunctionIdSet :=
  let r := s.call v
  { r.2 with function_ids := some (insert idx r.1) }

/-- `remove(idx)`: `if idx in self(): self.function_ids.remove(idx)`. -/
def FunctionIdSet.remove (v : InitValue) (idx : Nat) (s : FunctionIdSet) :
    FunctionIdSet :=
  let r := s.call v
  if idx ∈ r.1 then { r.2 with function_ids := some (r.1.erase idx) } else r.2

/-- `__contains__`: lazy init, then membership. -/
def FunctionIdSet.containsId (v : InitValue) (idx : Nat) (s : FunctionIdSet) :
    Bool × FunctionIdSet :=
  let r := s.call v
  (decide (idx ∈ r.1), r.2)

/-! ### The registry configuration and global state

`_allowed_function_ids` is initialized from the `torch` and `math` namespace
walk, the `torch.Tensor` method sweep, subtraction of
`_disallowed_function_ids()`, and the two extra tracer predicates
(`is_fx_tracing`, `is_compiling`).  `_disallowed_function_ids` is
initialized from a fixed identity set.  The ambient Python environment
(the interned objects and namespaces) is a `Config`. -/

/-- The ambient environment the two lazy initializers close over. -/
structure Config where
  /-- The namespace graph rooted at the `torch` and `math` modules. -/
  graph : NSGraph
  /-- `config.allowed_functions_module_string_ignorelist` (that config module
  is not part of this excerpt; modelled from the spec: an ordered set of
  qualified-name prefixes to ignore during traversal). -/
  policy : List String
  /-- `id(torch)`. -/
  torchRootId : Nat
  /-- `id(math)`. -/
  mathRootId : Nat
  /-- The `torch.Tensor.{fn}` method-descriptor sweep: identity and
  qualified name of each `MethodDescriptorType` attribute. -/
  tensorMethods : NameMap
  /-- The identity set `{id(x) for x in remove}` (plus dtype and storage
  singletons) computed by the `_disallowed_function_ids` initializer. -/
  disallowedInit : Finset Nat
  /-- The `(is_fx_tracing, is_compiling)` extras appended last, with their
  qualified names. -/
  extras : NameMap

/-- The dict built by the body of the `_allowed_function_ids` initializer
before subtraction: both namespace walks, then the tensor-method sweep. -/
def discoveredDict (cfg : Config) : NameMap :=
  let fuel := cfg.graph.ids.card + 1
  let m1 := (findAux cfg.graph cfg.policy fuel cfg.torchRootId []).getD []
  let m2 := (findAux cfg.graph cfg.policy fuel cfg.mathRootId m1).getD m1
  cfg.tensorMethods.foldl (fun m p => dictInsert m p.1 p.2) m2

/-- The value returned by the `_allowed_function_ids` initializer, given the
current contents `dis` of `_disallowed_function_ids()`: subtract every
disallowed identity, then record the two extras. -/
def allowedInitDict (cfg : Config) (dis : Finset Nat) : NameMap :=
  cfg.extras.foldl (fun m p => dictInsert m p.1 p.2)
    ((discoveredDict cfg).filter (fun p => p.1 ∉ dis))

/-- The module-level mutable state of `allowed_functions.py`: the two
`FunctionIdSet` globals plus the `_dynamo_forbidden` attribute bits (keyed
by object identity, since `forbid_in_graph` stores the tag on the object). -/
structure RegistryState where
  allowed : FunctionIdSet
  disallowed : FunctionIdSet
  forbiddenIds : Finset Nat
deriving DecidableEq

/-- The state at import time: nothing materialized, no tags. -/
def RegistryState.start : RegistryState := ⟨.fresh, .fresh, ∅⟩

/-- `_disallowed_function_ids()` at the registry level. -/
def matDisallowed (cfg : Config) (st : RegistryState) :
    Finset Nat × RegistryState :=
  let r := st.disallowed.call (.set cfg.disallowedInit)
  (r.1, { st with disallowed := r.2 })

/-- `_allowed_function_ids()` at the registry level.  Materializing the
allowed set runs its initializer, which itself materializes
`_disallowed_function_ids` and subtracts its current contents. -/
def matAllowed (cfg : Config) (st : RegistryState) :
    Finset Nat × RegistryState :=
  match st.allowed.function_ids with
  | some ids => (ids, st)
  | none =>
    let r := matDisallowed cfg st
    let m := allowedInitDict cfg r.1
    (dictKeys m, { r.2 with allowed := ⟨some (dictKeys m), some m⟩ })

/-- Registry-level `_allowed_function_ids.add(idx)`. -/
def allowedAdd (cfg : Config) (idx : Nat) (st : RegistryState) : RegistryState :=
  let r := matAllowed cfg st
  { r.2 with allowed := { r.2.allowed with function_ids := some (insert idx r.1) } }

/-- Registry-level `_allowed_function_ids.remove(idx)`. -/
def allowedRemove (cfg : Config) (idx : Nat) (st : RegistryState) : RegistryState :=
  let r := matAllowed cfg st
  if idx ∈ r.1 then
    { r.2 with allowed := { r.2.allowed with function_ids := some (r.1.erase idx) } }
  else r.2

/-- Registry-level `_allowed_function_ids.get_name(idx, default)`. -/
def allowedGetName (cfg : Config) (idx : Nat) (dflt : String) (st : RegistryState) :
    Except PyErr String × RegistryState :=
  let r := matAllowed cfg st
  match r.2.allowed.function_names with
  | none => (.error (.attributeError "NoneType object has no attribute get"), r.2)
  | some m => (.ok (dictGetD m idx dflt), r.2)

/-- Registry-level `_disallowed_function_ids.add(idx)`. -/
def disallowedAdd (cfg : Config) (idx : Nat) (st : RegistryState) : RegistryState :=
  { st with disallowed := st.disallowed.add (.set cfg.disallowedInit) idx }

/-- Registry-level `_disallowed_function_ids.remove(idx)`. -/
def disallowedRemove (cfg : Config) (idx : Nat) (st : RegistryState) : RegistryState :=
  { st with disallowed := st.disallowed.remove (.set cfg.disallowedInit) idx }

/-! ### The query and override surface -/

/-- A Python object as seen by the override API: its identity, whether
`callable(obj)` holds, and whether it is an instance of
`torch._ops.OpOverloadPacket`, `torch._ops.OpOverload` or
`torch._ops._OpNamespace`. -/
structure PyObj where
  oid : Nat
  callable : Bool
  isOpInstance : Bool
deriving DecidableEq

/-- An argument to `allow_in_graph` / `disallow_in_graph` /
`forbid_in_graph`: a single object, a `list` or a `tuple`. -/
inductive PyVal where
  | obj (o : PyObj)
  | pylist (xs : List PyVal)
  | pytuple (xs : List PyVal)

/-- `is_allowed(obj)`. -/
def is_allowed (cfg : Config) (o : PyObj) (st : RegistryState) :
    Bool × RegistryState :=
  let r := matAllowed cfg st
  (decide (o.oid ∈ r.1) || o.isOpInstance, r.2)

/-- `torch_get_name(obj, default)`. -/
def torch_get_name (cfg : Config) (o : PyObj) (dflt : String)
    (st : RegistryState) : Except PyErr String × RegistryState :=
  allowedGetName cfg o.oid dflt st

mutual

/-- `allow_in_graph(fn)`. -/
def allow_in_graph (cfg : Config) : PyVal → RegistryState →
    Except PyErr PyVal × RegistryState
  | .pylist xs, st =>
    match allowMany cfg xs st with
    | (.ok ys, st') => (.ok (.pylist ys), st')
    | (.error e, st') => (.error e, st')
  | .pytuple xs, st =>
    match allowMany cfg xs st with
    | (.ok ys, st') => (.ok (.pylist ys), st')
    | (.error e, st') => (.error e, st')
  | .obj o, st =>
    if o.callable then
      let st₁ := allowedAdd cfg o.oid st
      let st₂ := disallowedRemove cfg o.oid st₁
      (.ok (.obj o), st₂)
    else (.error (.assertionError "allow_in_graph expects a callable"), st)

/-- The list comprehension `[allow_in_graph(x) for x in fn]`. -/
def allowMany (cfg : Config) : List PyVal → RegistryState →
    Except PyErr (List PyVal) × RegistryState
  | [], st => (.ok [], st)
  | x :: xs, st =>
    match allow_in_graph cfg x st with
    | (.ok y, st') =>
      match allowMany cfg xs st' with
      | (.ok ys, st'') => (.ok (y :: ys), st'')
      | (.error e, st'') => (.error e, st'')
    | (.error e, st') => (.error e, st')

end

mutual

/-- `_disallow_in_graph_helper(throw_if_not_allowed)` applied to `fn`.  The
sequence branch recurses through `disallow_in_graph`, i.e. with
`throw_if_not_allowed=True`, regardless of the helper's own flag. -/
def disallowHelper (cfg : Config) (throwIfNotAllowed : Bool) :
    PyVal → RegistryState → Except PyErr PyVal × RegistryState
  | .pylist xs, st =>
    match disallowMany cfg xs st with
    | (.ok ys, st') => (.ok (.pylist ys), st')
    | (.error e, st') => (.error e, st')
  | .pytuple xs, st =>
    match disallowMany cfg xs st with
    | (.ok ys, st') => (.ok (.pylist ys), st')
    | (.error e, st') => (.error e, st')
  | .obj o, st =>
    if o.callable then
      if throwIfNotAllowed then
        match is_allowed cfg o st with
        | (b, st₁) =>
          if b then
            let st₂ := allowedRemove cfg o.oid st₁
            let st₃ := disallowedAdd cfg o.oid st₂
            (.ok (.obj o), st₃)
          else
            (.error (.incorrectUsage
              "disallow_in_graph is expected to be used on an already allowed callable (like torch.* ops). Allowed callables means callables that TorchDynamo puts as-is in the extracted graph."),
              st₁)
      else
        let st₂ := allowedRemove cfg o.oid st
        let st₃ := disallowedAdd cfg o.oid st₂
        (.ok (.obj o), st₃)
    else (.error (.assertionError "disallow_in_graph expects a callable"), st)

/-- The list comprehension `[disallow_in_graph(x) for x in fn]`. -/
def disallowMany (cfg : Config) : List PyVal → RegistryState →
    Except PyErr (List PyVal) × RegistryState
  | [], st => (.ok [], st)
  | x :: xs, st =>
    match disallowHelper cfg true x st with
    | (.ok y, st') =>
      match disallowMany cfg xs st' with
      | (.ok ys, st'') => (.ok (y :: ys), st'')
      | (.error e, st'') => (.error e, st'')
    | (.error e, st') => (.error e, st')

end

/-- `disallow_in_graph(fn)`: the helper with `throw_if_not_allowed=True`. -/
def disallow_in_graph (cfg : Config) (v : PyVal) (st : RegistryState) :
    Except PyErr PyVal × RegistryState :=
  disallowHelper cfg true v st

mutual

/-- `forbid_in_graph(fn)`: sets `fn._dynamo_forbidden = True`; the
classification sets are never touched. -/
def forbid_in_graph : PyVal → RegistryState →
    Except PyErr PyVal × RegistryState
  | .pylist xs, st =>
    match forbidMany xs st with
    | (.ok ys, st') => (.ok (.pylist ys), st')
    | (.error e, st') => (.error e, st')
  | .pytuple xs, st =>
    match forbidMany xs st with
    | (.ok ys, st') => (.ok (.pylist ys), st')
    | (.error e, st') => (.error e, st')
  | .obj o, st =>
    if o.callable then
      (.ok (.obj o), { st with forbiddenIds := insert o.oid st.forbiddenIds })
    else (.error (.assertionError "forbid_in_graph applies only to callables"), st)

/-- The list comprehension `[forbid_in_graph(x) for x in fn]`. -/
def forbidMany : List PyVal → RegistryState →
    Except PyErr (List PyVal) × RegistryState
  | [], st => (.ok [], st)
  | x :: xs, st =>
    match forbid_in_graph x st with
    | (.ok y, st') =>
      match forbidMany xs st' with
      | (.ok ys, st'') => (.ok (y :: ys), st'')
      | (.error e, st'') => (.error e, st'')
    | (.error e, st') => (.error e, st')

end

/-! ### Observable contents of the two classification sets

The registry materializes lazily; `disallowedView`/`allowedView` give the
contents each set has, or would have upon materialization, in a given
state.  Every operation's effect on classification is stated on these
views. -/

/-- The contents of `_disallowed_function_ids` (present or upon
materialization). -/
def disallowedView (cfg : Config) (st : RegistryState) : Finset Nat :=
  match st.disallowed.function_ids with
  | some ids => ids
  | none => cfg.disallowedInit

/-- The contents of `_allowed_function_ids` (present or upon
materialization, which would subtract the current disallowed contents). -/
def allowedView (cfg : Config) (st : RegistryState) : Finset Nat :=
  match st.allowed.function_ids with
  | some ids => ids
  | none => dictKeys (allowedInitDict cfg (disallowedView cfg st))

/-! ### The at-most-one-classification invariant (C1) -/

/-- No identity is in both classification sets (as observed at query time,
i.e. on the materialized-or-to-be-materialized contents). -/
def classConsistent (cfg : Config) (st : RegistryState) : Prop :=
  ∀ i : Nat, ¬(i ∈ allowedView cfg st ∧ i ∈ disallowedView cfg st)

/-- Well-formedness of the ambient environment: the two extra tracer
predicates recorded last by the `_allowed_function_ids` initializer are
fresh function objects, not members of the fixed disallowed identity set.
This is true of the real module (they are module-level `def`s unrelated to
the `remove` list). -/
def Config.wf (cfg : Config) : Prop :=
  ∀ p ∈ cfg.extras, p.1 ∉ cfg.disallowedInit

/-! ### Reachable registry states -/

/-- A registry state reachable from import time by any sequence of queries,
discovery/materialization (triggered by any of them), allow, disallow
(strict or not) and forbid operations. -/
inductive Reachable (cfg : Config) : RegistryState → Prop where
  | start : Reachable cfg .start
  | queryAllowed (o : PyObj) {st : RegistryState} :
      Reachable cfg st → Reachable cfg (is_allowed cfg o st).2
  | queryName (o : PyObj) (dflt : String) {st : RegistryState} :
      Reachable cfg st → Reachable cfg (torch_get_name cfg o dflt st).2
  | allowStep (v : PyVal) {st : RegistryState} :
      Reachable cfg st → Reachable cfg (allow_in_graph cfg v st).2
  | disallowStep (thr : Bool) (v : PyVal) {st : RegistryState} :
      Reachable cfg st → Reachable cfg (disallowHelper cfg thr v st).2
  | forbidStep (v : PyVal) {st : RegistryState} :
      Reachable cfg st → Reachable cfg (forbid_in_graph v st).2

/-! ### Shared concrete instances for the witnesses -/

/-- A plain user callable (not a dispatch-wrapper instance). -/
def objA : PyObj := ⟨5, true, false⟩

/-- A second plain user callable. -/
def objB : PyObj := ⟨6, true, false⟩

/-- A callable that is an instance of one of the `torch._ops`
dispatch-wrapper types. -/
def objOp : PyObj := ⟨7, true, true⟩

/-- A minimal environment: empty namespace graph, empty policy, no tensor
methods, no disallowed identities, no extras. -/
def cfgEmpty : Config := ⟨⟨[]⟩, [], 0, 1, [], ∅, []⟩

/-- An environment whose discovery yields `objA` and `objB` (recorded as
tensor methods), so both start out classified Allowed. -/
def cfgAB : Config :=
  ⟨⟨[]⟩, [], 0, 1, [(5, "torch.Tensor.a"), (6, "torch.Tensor.b")], ∅, []⟩

/-! ### Concrete graphs for claims C5 and C7 -/

/-- A namespace graph with a module `torch.sub` whose name does not itself
match the trailing-dot policy prefix `"torch.sub."`, plus a function in it. -/
def gC5 : NSGraph :=
  ⟨[(0, ⟨"torch", [("sub", .module 1)]⟩),
    (1, ⟨"torch.sub", [("f", .plain 2 (some "torch") false)]⟩)]⟩

/-- The environment for the C5 counterexample (`math` root id absent from
the graph, so the second walk is a no-op). -/
def cfgC5 : Config := ⟨gC5, ["torch.sub."], 0, 99, [], ∅, []⟩

/-- A graph where module 2 (`torch.foo`) is first reached through the alias
binding `baz` inside `torch.bar`. -/
def gC7 : NSGraph :=
  ⟨[(0, ⟨"torch", [("bar", .module 1), ("foo", .module 2)]⟩),
    (1, ⟨"torch.bar", [("baz", .module 2)]⟩),
    (2, ⟨"torch.foo", []⟩)]⟩

/-! ### Theorems -/

@[simp] theorem dictKeys_nil : dictKeys [] = ∅ := rfl

@[simp] theorem dictKeys_cons (p : Nat × String) (m : NameMap) :
    dictKeys (p :: m) = insert p.1 (dictKeys m) := by
  simp [dictKeys]

@[simp] theorem dictMem_iff {m : NameMap} {k : Nat} :
    dictMem m k = true ↔ k ∈ dictKeys m := by
  induction m with
  | nil => simp [dictMem]
  | cons p t ih =>
      simp only [dictMem, Bool.or_eq_true, beq_iff_eq, ih, dictKeys_cons,
        Finset.mem_insert]
      exact or_congr eq_comm Iff.rfl

@[simp] theorem dictKeys_dictInsert (m : NameMap) (k : Nat) (v : String) :
    dictKeys (dictInsert m k v) = insert k (dictKeys m) := by
  induction m with
  | nil => simp [dictInsert]
  | cons p t ih =>
      by_cases hp : p.1 = k
      · simp [dictInsert, hp]
      · simp only [dictInsert, beq_iff_eq, if_neg hp, dictKeys_cons, ih]
        rw [Finset.Insert.comm]

@[simp] theorem dictFind_dictInsert (m : NameMap) (k : Nat) (v : String) (i : Nat) :
    dictFind (dictInsert m k v) i = if i = k then some v else dictFind m i := by
  induction m with
  | nil =>
      by_cases hik : i = k
      · simp [dictInsert, dictFind, hik]
      · have hki : ¬(k = i) := fun h => hik h.symm
        simp [dictInsert, dictFind, hik, hki]
  | cons p t ih =>
      by_cases hp : p.1 = k
      · by_cases hik : i = k
        · simp [dictInsert, dictFind, hp, hik]
        · have hki : ¬(k = i) := fun h => hik h.symm
          have hpi : ¬(p.1 = i) := fun h => hik (hp ▸ h : k = i).symm
          simp [dictInsert, dictFind, hp, hik, hki, hpi]
      · by_cases hpi : p.1 = i
        · have hik : ¬(i = k) := fun h => hp (hpi.symm ▸ h : p.1 = k)
          simp [dictInsert, dictFind, hp, hpi, hik]
        · simp [dictInsert, dictFind, hp, hpi, ih]

theorem dictFind_isSome_iff {m : NameMap} {k : Nat} :
    (dictFind m k).isSome = true ↔ k ∈ dictKeys m := by
  induction m with
  | nil => simp [dictFind]
  | cons p t ih =>
      by_cases hp : p.1 = k
      · simp [dictFind, hp]
      · have hkp : ¬(k = p.1) := fun h => hp h.symm
        simp [dictFind, hp, hkp, ih]

theorem dictFind_eq_none_of_not_mem {m : NameMap} {k : Nat}
    (h : k ∉ dictKeys m) : dictFind m k = none := by
  have := (not_iff_not.mpr (dictFind_isSome_iff (m := m) (k := k))).mpr h
  cases hf : dictFind m k with
  | none => rfl
  | some v => rw [hf] at this; simp at this

theorem NSGraph.lookup_mem_ids {g : NSGraph} {i : Nat} {n : NSNode}
    (h : g.lookup i = some n) : i ∈ g.ids := by
  unfold NSGraph.lookup at h
  cases hf : g.nodes.find? (fun p => p.1 == i) with
  | none => rw [hf] at h; simp at h
  | some p =>
      have hm := List.mem_of_find?_eq_some hf
      have hp := List.find?_some hf
      have : p.1 = i := by simpa using hp
      unfold NSGraph.ids
      simp only [List.mem_toFinset, List.mem_map]
      exact ⟨p, hm, this⟩

theorem findAux_zero (g : NSGraph) (pol : List String) (nid : Nat) (acc : NameMap) :
    findAux g pol 0 nid acc = none := rfl

theorem findAux_succ (g : NSGraph) (pol : List String) (fuel nid : Nat) (acc : NameMap) :
    findAux g pol (fuel + 1) nid acc =
      match g.lookup nid with
      | none => some acc
      | some node =>
        if pol.any (fun p => strStartsWith node.name p) then some acc
        else
          node.dict.foldl (childStep g pol fuel node.name)
            (some (dictInsert acc nid node.name)) := rfl

theorem missing_mono {g : NSGraph} {a b : NameMap}
    (h : dictKeys a ⊆ dictKeys b) : missing g b ≤ missing g a :=
  Finset.card_le_card (Finset.sdiff_subset_sdiff (Finset.Subset.refl _) h)

theorem dictKeys_subset_dictInsert (m : NameMap) (k : Nat) (v : String) :
    dictKeys m ⊆ dictKeys (dictInsert m k v) := by
  rw [dictKeys_dictInsert]
  exact Finset.subset_insert _ _

theorem missing_dictInsert_le (g : NSGraph) (m : NameMap) (k : Nat) (v : String) :
    missing g (dictInsert m k v) ≤ missing g m :=
  missing_mono (dictKeys_subset_dictInsert m k v)

theorem missing_dictInsert_lt {g : NSGraph} {k : Nat} (m : NameMap) (v : String)
    (hk : k ∈ g.ids) (hk2 : k ∉ dictKeys m) :
    missing g (dictInsert m k v) < missing g m := by
  unfold missing
  rw [dictKeys_dictInsert]
  have h1 : g.ids \ insert k (dictKeys m) = (g.ids \ dictKeys m).erase k := by
    ext x
    simp only [Finset.mem_sdiff, Finset.mem_insert, Finset.mem_erase, not_or]
    constructor
    · rintro ⟨hx, hxk, hxm⟩
      exact ⟨hxk, hx, hxm⟩
    · rintro ⟨hxk, hx, hxm⟩
      exact ⟨hx, hxk, hxm⟩
  rw [h1]
  exact Finset.card_erase_lt_of_mem (Finset.mem_sdiff.mpr ⟨hk, hk2⟩)

theorem missing_zero_subset {g : NSGraph} {m : NameMap}
    (h : missing g m = 0) : g.ids ⊆ dictKeys m := by
  unfold missing at h
  intro x hx
  by_contra hxm
  have hmem : x ∈ g.ids \ dictKeys m := Finset.mem_sdiff.mpr ⟨hx, hxm⟩
  have := Finset.card_pos.mpr ⟨x, hmem⟩
  omega

/-- If `_find_torch_objects` completes with the given fuel whenever fewer
identities are missing, then the child-binding loop completes with that fuel
whenever at most that many identities are missing, and only grows the dict. -/
theorem foldl_childStep_sufficient (g : NSGraph) (pol : List String) (fuel : Nat)
    (hA : ∀ nid acc, missing g acc < fuel →
      ∃ r, findAux g pol fuel nid acc = some r ∧ dictKeys acc ⊆ dictKeys r) :
    ∀ (cs : List (String × PyChild)) (mname : String) (acc : NameMap),
      missing g acc ≤ fuel →
      ∃ r, cs.foldl (childStep g pol fuel mname) (some acc) = some r ∧
        dictKeys acc ⊆ dictKeys r := by
  intro cs
  induction cs with
  | nil =>
      intro mname acc h
      exact ⟨acc, rfl, Finset.Subset.refl _⟩
  | cons c rest ihc =>
      intro mname acc h
      obtain ⟨cname, cv⟩ := c
      show ∃ r, rest.foldl (childStep g pol fuel mname)
        (childStep g pol fuel mname (some acc) (cname, cv)) = some r ∧ _
      cases cv with
      | module cnid =>
          by_cases hmem : dictMem acc cnid = true
          · rw [show childStep g pol fuel mname (some acc) (cname, .module cnid) =
                some acc by simp [childStep, PyChild.oid, hmem]]
            exact ihc mname acc h
          · rw [Bool.not_eq_true] at hmem
            cases hl : g.lookup cnid with
            | none =>
                rw [show childStep g pol fuel mname (some acc) (cname, .module cnid) =
                    some acc by simp [childStep, PyChild.oid, hmem, hl]]
                exact ihc mname acc h
            | some cnode =>
                by_cases hname : (strStartsWith cnode.name "torch." &&
                    allowedModulePrefixName cnode.name) = true
                · have hstep : childStep g pol fuel mname (some acc) (cname, .module cnid) =
                      findAux g pol fuel cnid
                        (dictInsert acc cnid (mname ++ "." ++ cname)) := by
                    simp [childStep, PyChild.oid, hmem, hl, hname]
                  have hkeys : cnid ∉ dictKeys acc := by
                    intro hk
                    rw [dictMem_iff.mpr hk] at hmem
                    exact Bool.true_eq_false.mp hmem
                  have hlt : missing g (dictInsert acc cnid (mname ++ "." ++ cname)) <
                      fuel :=
                    lt_of_lt_of_le
                      (missing_dictInsert_lt acc _ (NSGraph.lookup_mem_ids hl) hkeys) h
                  obtain ⟨r₁, hr₁, hsub₁⟩ := hA cnid _ hlt
                  rw [hstep, hr₁]
                  obtain ⟨r, hr, hsub⟩ := ihc mname r₁
                    (le_trans (missing_mono hsub₁) (Nat.le_of_lt hlt))
                  refine ⟨r, hr, ?_⟩
                  exact Finset.Subset.trans (dictKeys_subset_dictInsert _ _ _)
                    (Finset.Subset.trans hsub₁ hsub)
                · rw [show childStep g pol fuel mname (some acc) (cname, .module cnid) =
                      some acc by simp [childStep, PyChild.oid, hmem, hl, hname]]
                  exact ihc mname acc h
      | plain oid modName safeConst =>
          by_cases hmem : dictMem acc oid = true
          · rw [show childStep g pol fuel mname (some acc)
                (cname, .plain oid modName safeConst) = some acc by
              simp [childStep, PyChild.oid, hmem]]
            exact ihc mname acc h
          · rw [Bool.not_eq_true] at hmem
            by_cases h1 : allowedModulePrefixOpt modName = true
            · rw [show childStep g pol fuel mname (some acc)
                  (cname, .plain oid modName safeConst) =
                  some (dictInsert acc oid (mname ++ "." ++ cname)) by
                simp [childStep, PyChild.oid, hmem, h1]]
              obtain ⟨r, hr, hsub⟩ := ihc mname (dictInsert acc oid (mname ++ "." ++ cname))
                (le_trans (missing_dictInsert_le g acc oid _) h)
              exact ⟨r, hr, Finset.Subset.trans (dictKeys_subset_dictInsert _ _ _) hsub⟩
            · by_cases h2 : (modName.isNone && !safeConst) = true
              · rw [show childStep g pol fuel mname (some acc)
                    (cname, .plain oid modName safeConst) =
                    some (dictInsert acc oid (mname ++ "." ++ cname)) by
                  simp [childStep, PyChild.oid, hmem, h1, h2]]
                obtain ⟨r, hr, hsub⟩ := ihc mname
                  (dictInsert acc oid (mname ++ "." ++ cname))
                  (le_trans (missing_dictInsert_le g acc oid _) h)
                exact ⟨r, hr, Finset.Subset.trans (dictKeys_subset_dictInsert _ _ _) hsub⟩
              · rw [show childStep g pol fuel mname (some acc)
                    (cname, .plain oid modName safeConst) = some acc by
                  simp [childStep, PyChild.oid, hmem, h1, h2]]
                exact ihc mname acc h

/-- Fuel-sufficiency: with more fuel than unrecorded module identities,
`_find_torch_objects` completes and only grows the recorded dict. -/
theorem findAux_sufficient (g : NSGraph) (pol : List String) : ∀ fuel : Nat,
    ∀ nid acc, missing g acc < fuel →
      ∃ r, findAux g pol fuel nid acc = some r ∧ dictKeys acc ⊆ dictKeys r := by
  intro fuel
  induction fuel with
  | zero =>
      intro nid acc h
      omega
  | succ fuel ih =>
      intro nid acc h
      rw [findAux_succ]
      cases hl : g.lookup nid with
      | none => exact ⟨acc, rfl, Finset.Subset.refl _⟩
      | some node =>
          by_cases hpol : pol.any (fun p => strStartsWith node.name p) = true
          · simp only [hpol, if_true]
            exact ⟨acc, rfl, Finset.Subset.refl _⟩
          · simp only [hpol, if_false, Bool.false_eq_true]
            obtain ⟨r, hr, hsub⟩ := foldl_childStep_sufficient g pol fuel ih
              node.dict node.name (dictInsert acc nid node.name)
              (le_trans (missing_dictInsert_le g acc nid node.name)
                (Nat.lt_succ_iff.mp h))
            exact ⟨r, hr, Finset.Subset.trans (dictKeys_subset_dictInsert _ _ _) hsub⟩

theorem missing_le_card (g : NSGraph) (m : NameMap) : missing g m ≤ g.ids.card :=
  Finset.card_le_card (Finset.sdiff_subset)

/-- The discovery pass always completes. -/
theorem findTorchObjects_isSome (g : NSGraph) (pol : List String) (root : Nat) :
    ∃ r, findTorchObjects g pol root = some r := by
  obtain ⟨r, hr, _⟩ := findAux_sufficient g pol (g.ids.card + 1) root []
    (Nat.lt_succ_of_le (missing_le_card g []))
  exact ⟨r, hr⟩

theorem matDisallowed_fst (cfg : Config) (st : RegistryState) :
    (matDisallowed cfg st).1 = disallowedView cfg st := by
  cases h : st.disallowed.function_ids <;>
    simp [matDisallowed, FunctionIdSet.call, disallowedView, h]

theorem matDisallowed_snd_disallowed (cfg : Config) (st : RegistryState) :
    (matDisallowed cfg st).2.disallowed.function_ids =
      some (disallowedView cfg st) := by
  cases h : st.disallowed.function_ids <;>
    simp [matDisallowed, FunctionIdSet.call, disallowedView, h]

theorem matDisallowed_snd_allowed (cfg : Config) (st : RegistryState) :
    (matDisallowed cfg st).2.allowed = st.allowed := by
  cases h : st.disallowed.function_ids <;>
    simp [matDisallowed, FunctionIdSet.call, h]

theorem matDisallowed_snd_forbidden (cfg : Config) (st : RegistryState) :
    (matDisallowed cfg st).2.forbiddenIds = st.forbiddenIds := by
  cases h : st.disallowed.function_ids <;>
    simp [matDisallowed, FunctionIdSet.call, h]

theorem disallowedView_of_some {cfg : Config} {st : RegistryState} {ids : Finset Nat}
    (h : st.disallowed.function_ids = some ids) : disallowedView cfg st = ids := by
  rw [disallowedView, h]

theorem allowedView_of_some {cfg : Config} {st : RegistryState} {ids : Finset Nat}
    (h : st.allowed.function_ids = some ids) : allowedView cfg st = ids := by
  rw [allowedView, h]

/-- `disallowedView` only reads the `disallowed` field. -/
theorem disallowedView_congr {cfg : Config} {st st' : RegistryState}
    (h : st'.disallowed = st.disallowed) :
    disallowedView cfg st' = disallowedView cfg st := by
  unfold disallowedView
  rw [h]

theorem matDisallowed_view (cfg : Config) (st : RegistryState) :
    disallowedView cfg (matDisallowed cfg st).2 = disallowedView cfg st :=
  disallowedView_of_some (matDisallowed_snd_disallowed cfg st)

theorem matAllowed_fst (cfg : Config) (st : RegistryState) :
    (matAllowed cfg st).1 = allowedView cfg st := by
  cases h : st.allowed.function_ids with
  | some ids => simp [matAllowed, allowedView, h]
  | none => simp [matAllowed, allowedView, h, matDisallowed_fst]

theorem matAllowed_snd_allowed (cfg : Config) (st : RegistryState) :
    (matAllowed cfg st).2.allowed.function_ids = some (allowedView cfg st) := by
  cases h : st.allowed.function_ids with
  | some ids => simp [matAllowed, allowedView, h]
  | none => simp [matAllowed, allowedView, h, matDisallowed_fst]

theorem matAllowed_snd_disallowed (cfg : Config) (st : RegistryState) :
    (matAllowed cfg st).2.disallowed =
      st.disallowed ∨
    (matAllowed cfg st).2.disallowed = (matDisallowed cfg st).2.disallowed := by
  cases h : st.allowed.function_ids with
  | some ids => exact Or.inl (by simp [matAllowed, h])
  | none => exact Or.inr (by simp [matAllowed, h])

theorem matAllowed_view_disallowed (cfg : Config) (st : RegistryState) :
    disallowedView cfg (matAllowed cfg st).2 = disallowedView cfg st := by
  rcases matAllowed_snd_disallowed cfg st with h | h
  · exact disallowedView_congr h
  · rw [disallowedView_congr h]
    exact matDisallowed_view cfg st

theorem matAllowed_view_allowed (cfg : Config) (st : RegistryState) :
    allowedView cfg (matAllowed cfg st).2 = allowedView cfg st :=
  allowedView_of_some (matAllowed_snd_allowed cfg st)

theorem matAllowed_forbidden (cfg : Config) (st : RegistryState) :
    (matAllowed cfg st).2.forbiddenIds = st.forbiddenIds := by
  cases h : st.allowed.function_ids with
  | some ids => simp [matAllowed, h]
  | none => simp [matAllowed, h, matDisallowed_snd_forbidden cfg st]

/-- `allowedAdd` inserts into the allowed view and leaves the disallowed
set, its view, and the forbidden tags unchanged. -/
theorem allowedAdd_spec (cfg : Config) (idx : Nat) (st : RegistryState) :
    (allowedAdd cfg idx st).allowed.function_ids =
      some (insert idx (allowedView cfg st)) ∧
    (allowedAdd cfg idx st).disallowed = (matAllowed cfg st).2.disallowed ∧
    (allowedAdd cfg idx st).forbiddenIds = st.forbiddenIds := by
  refine ⟨?_, rfl, ?_⟩
  · show some (insert idx (matAllowed cfg st).1) = _
    rw [matAllowed_fst]
  · show (matAllowed cfg st).2.forbiddenIds = _
    exact matAllowed_forbidden cfg st

theorem allowedAdd_view (cfg : Config) (idx : Nat) (st : RegistryState) :
    allowedView cfg (allowedAdd cfg idx st) = insert idx (allowedView cfg st) :=
  allowedView_of_some (allowedAdd_spec cfg idx st).1

theorem allowedAdd_view_disallowed (cfg : Config) (idx : Nat) (st : RegistryState) :
    disallowedView cfg (allowedAdd cfg idx st) = disallowedView cfg st := by
  rw [disallowedView_congr (allowedAdd_spec cfg idx st).2.1]
  exact matAllowed_view_disallowed cfg st

/-- `allowedRemove` erases from the allowed view and leaves the disallowed
view and the forbidden tags unchanged; afterwards the allowed set is
materialized. -/
theorem allowedRemove_spec (cfg : Config) (idx : Nat) (st : RegistryState) :
    (allowedRemove cfg idx st).allowed.function_ids =
      some ((allowedView cfg st).erase idx) ∧
    (allowedRemove cfg idx st).disallowed = (matAllowed cfg st).2.disallowed ∧
    (allowedRemove cfg idx st).forbiddenIds = st.forbiddenIds := by
  unfold allowedRemove
  by_cases h : idx ∈ (matAllowed cfg st).1
  · rw [if_pos h]
    refine ⟨?_, rfl, matAllowed_forbidden cfg st⟩
    simp only [matAllowed_fst]
  · rw [if_neg h]
    rw [matAllowed_fst] at h
    refine ⟨?_, rfl, matAllowed_forbidden cfg st⟩
    rw [matAllowed_snd_allowed, Finset.erase_eq_self.mpr h]

theorem allowedRemove_view (cfg : Config) (idx : Nat) (st : RegistryState) :
    allowedView cfg (allowedRemove cfg idx st) = (allowedView cfg st).erase idx :=
  allowedView_of_some (allowedRemove_spec cfg idx st).1

theorem allowedRemove_view_disallowed (cfg : Config) (idx : Nat) (st : RegistryState) :
    disallowedView cfg (allowedRemove cfg idx st) = disallowedView cfg st := by
  rw [disallowedView_congr (allowedRemove_spec cfg idx st).2.1]
  exact matAllowed_view_disallowed cfg st

/-- `disallowedAdd` inserts into the disallowed view, leaves the allowed
field (hence, when the allowed set is materialized, the allowed view) and
the forbidden tags unchanged. -/
theorem disallowedAdd_spec (cfg : Config) (idx : Nat) (st : RegistryState) :
    (disallowedAdd cfg idx st).disallowed.function_ids =
      some (insert idx (disallowedView cfg st)) ∧
    (disallowedAdd cfg idx st).allowed = st.allowed ∧
    (disallowedAdd cfg idx st).forbiddenIds = st.forbiddenIds := by
  cases h : st.disallowed.function_ids <;>
    simp [disallowedAdd, FunctionIdSet.add, FunctionIdSet.call, disallowedView, h]

theorem disallowedAdd_view (cfg : Config) (idx : Nat) (st : RegistryState) :
    disallowedView cfg (disallowedAdd cfg idx st) =
      insert idx (disallowedView cfg st) :=
  disallowedView_of_some (disallowedAdd_spec cfg idx st).1

/-- `disallowedRemove` erases from the disallowed view, leaves the allowed
field and the forbidden tags unchanged. -/
theorem disallowedRemove_spec (cfg : Config) (idx : Nat) (st : RegistryState) :
    (disallowedRemove cfg idx st).disallowed.function_ids =
      some ((disallowedView cfg st).erase idx) ∧
    (disallowedRemove cfg idx st).allowed = st.allowed ∧
    (disallowedRemove cfg idx st).forbiddenIds = st.forbiddenIds := by
  cases h : st.disallowed.function_ids with
  | some ids =>
      by_cases hm : idx ∈ ids
      · simp [disallowedRemove, FunctionIdSet.remove, FunctionIdSet.call,
          disallowedView, h, hm]
      · simp [disallowedRemove, FunctionIdSet.remove, FunctionIdSet.call,
          disallowedView, h, hm, Finset.erase_eq_self.mpr hm]
  | none =>
      by_cases hm : idx ∈ cfg.disallowedInit
      · simp [disallowedRemove, FunctionIdSet.remove, FunctionIdSet.call,
          disallowedView, h, hm]
      · simp [disallowedRemove, FunctionIdSet.remove, FunctionIdSet.call,
          disallowedView, h, hm, Finset.erase_eq_self.mpr hm]

theorem disallowedRemove_view (cfg : Config) (idx : Nat) (st : RegistryState) :
    disallowedView cfg (disallowedRemove cfg idx st) =
      (disallowedView cfg st).erase idx :=
  disallowedView_of_some (disallowedRemove_spec cfg idx st).1

theorem allowedView_of_allowed_eq {cfg : Config} {st st' : RegistryState}
    {ids : Finset Nat} (hmat : st.allowed.function_ids = some ids)
    (h : st'.allowed = st.allowed) : allowedView cfg st' = ids := by
  rw [allowedView, h, hmat]

theorem dictKeys_foldl_dictInsert (l : NameMap) : ∀ m0 : NameMap,
    dictKeys (l.foldl (fun m p => dictInsert m p.1 p.2) m0) =
      dictKeys m0 ∪ (l.map Prod.fst).toFinset := by
  induction l with
  | nil => intro m0; simp
  | cons p t ih =>
      intro m0
      show dictKeys (t.foldl _ (dictInsert m0 p.1 p.2)) = _
      rw [ih]
      ext i
      simp only [dictKeys_dictInsert, Finset.mem_union, Finset.mem_insert,
        List.map_cons, List.toFinset_cons]
      tauto

theorem not_mem_of_mem_filter_keys {m : NameMap} {dis : Finset Nat} {i : Nat}
    (h : i ∈ dictKeys (m.filter (fun p => decide (p.1 ∉ dis)))) : i ∉ dis := by
  unfold dictKeys at h
  simp only [List.mem_toFinset, List.mem_map] at h
  obtain ⟨p, hp, hpi⟩ := h
  rw [List.mem_filter] at hp
  have := of_decide_eq_true hp.2
  exact hpi ▸ this

/-- Any identity in the initializer's dict is either policy-subtracted away
from the disallowed contents or one of the well-formed extras. -/
theorem allowedInitDict_not_disallowed {cfg : Config} (hwf : cfg.wf)
    {i : Nat} (h : i ∈ dictKeys (allowedInitDict cfg cfg.disallowedInit)) :
    i ∉ cfg.disallowedInit := by
  unfold allowedInitDict at h
  rw [dictKeys_foldl_dictInsert] at h
  rcases Finset.mem_union.mp h with h | h
  · exact not_mem_of_mem_filter_keys h
  · simp only [List.mem_toFinset, List.mem_map] at h
    obtain ⟨p, hp, hpi⟩ := h
    exact hpi ▸ hwf p hp

theorem classConsistent_start {cfg : Config} (hwf : cfg.wf) :
    classConsistent cfg .start := by
  intro i ⟨hA, hD⟩
  have hDv : disallowedView cfg RegistryState.start = cfg.disallowedInit := rfl
  have hAv : allowedView cfg RegistryState.start =
      dictKeys (allowedInitDict cfg cfg.disallowedInit) := rfl
  rw [hAv] at hA
  rw [hDv] at hD
  exact allowedInitDict_not_disallowed hwf hA hD

/-- Queries preserve the invariant: materialization does not change views. -/
theorem classConsistent_matAllowed {cfg : Config} {st : RegistryState}
    (h : classConsistent cfg st) : classConsistent cfg (matAllowed cfg st).2 := by
  intro i hi
  rw [matAllowed_view_allowed, matAllowed_view_disallowed] at hi
  exact h i hi

/-- The single-callable `allow_in_graph` body preserves the invariant. -/
theorem classConsistent_allow_obj {cfg : Config} {st : RegistryState} (oid : Nat)
    (h : classConsistent cfg st) :
    classConsistent cfg (disallowedRemove cfg oid (allowedAdd cfg oid st)) := by
  intro i hi
  have hA : allowedView cfg (disallowedRemove cfg oid (allowedAdd cfg oid st)) =
      insert oid (allowedView cfg st) :=
    allowedView_of_allowed_eq (allowedAdd_spec cfg oid st).1
      (disallowedRemove_spec cfg oid (allowedAdd cfg oid st)).2.1
  have hD : disallowedView cfg (disallowedRemove cfg oid (allowedAdd cfg oid st)) =
      (disallowedView cfg st).erase oid := by
    rw [disallowedRemove_view, allowedAdd_view_disallowed]
  rw [hA, hD] at hi
  rcases Finset.mem_insert.mp hi.1 with hio | hiA
  · exact (Finset.ne_of_mem_erase hi.2) hio
  · exact h i ⟨hiA, Finset.mem_of_mem_erase hi.2⟩

/-- The single-callable success path of `_disallow_in_graph_helper`
preserves the invariant. -/
theorem classConsistent_disallow_obj {cfg : Config} {st : RegistryState} (oid : Nat)
    (h : classConsistent cfg st) :
    classConsistent cfg (disallowedAdd cfg oid (allowedRemove cfg oid st)) := by
  intro i hi
  have hA : allowedView cfg (disallowedAdd cfg oid (allowedRemove cfg oid st)) =
      (allowedView cfg st).erase oid :=
    allowedView_of_allowed_eq (allowedRemove_spec cfg oid st).1
      (disallowedAdd_spec cfg oid (allowedRemove cfg oid st)).2.1
  have hD : disallowedView cfg (disallowedAdd cfg oid (allowedRemove cfg oid st)) =
      insert oid (disallowedView cfg st) := by
    rw [disallowedAdd_view, allowedRemove_view_disallowed]
  rw [hA, hD] at hi
  rcases Finset.mem_insert.mp hi.2 with hio | hiD
  · exact (Finset.ne_of_mem_erase hi.1) hio
  · exact h i ⟨Finset.mem_of_mem_erase hi.1, hiD⟩

/-- Views only read the classification fields, never the forbidden tags. -/
theorem classConsistent_forbidden_congr {cfg : Config} {st : RegistryState}
    (F : Finset Nat) (h : classConsistent cfg st) :
    classConsistent cfg { st with forbiddenIds := F } := by
  intro i hi
  have hA : allowedView cfg { st with forbiddenIds := F } = allowedView cfg st := rfl
  have hD : disallowedView cfg { st with forbiddenIds := F } =
      disallowedView cfg st := rfl
  rw [hA, hD] at hi
  exact h i hi

mutual

theorem classConsistent_allow (cfg : Config) : ∀ (v : PyVal) (st : RegistryState),
    classConsistent cfg st → classConsistent cfg (allow_in_graph cfg v st).2
  | .pylist xs, st, h => by
      have hm := classConsistent_allowMany cfg xs st h
      simp only [allow_in_graph]
      cases hx : allowMany cfg xs st with
      | mk r st' =>
          cases r with
          | ok ys => rw [hx] at hm; exact hm
          | error e => rw [hx] at hm; exact hm
  | .pytuple xs, st, h => by
      have hm := classConsistent_allowMany cfg xs st h
      simp only [allow_in_graph]
      cases hx : allowMany cfg xs st with
      | mk r st' =>
          cases r with
          | ok ys => rw [hx] at hm; exact hm
          | error e => rw [hx] at hm; exact hm
  | .obj o, st, h => by
      simp only [allow_in_graph]
      by_cases hc : o.callable = true
      · rw [if_pos hc]
        exact classConsistent_allow_obj o.oid h
      · rw [if_neg hc]
        exact h

theorem classConsistent_allowMany (cfg : Config) :
    ∀ (xs : List PyVal) (st : RegistryState),
    classConsistent cfg st → classConsistent cfg (allowMany cfg xs st).2
  | [], st, h => h
  | x :: xs, st, h => by
      have h1 := classConsistent_allow cfg x st h
      simp only [allowMany]
      cases hx : allow_in_graph cfg x st with
      | mk r st' =>
          rw [hx] at h1
          cases r with
          | ok y =>
              have h2 := classConsistent_allowMany cfg xs st' h1
              cases hx2 : allowMany cfg xs st' with
              | mk r2 st'' =>
                  rw [hx2] at h2
                  simp only [hx2]
                  cases r2 with
                  | ok ys => exact h2
                  | error e => exact h2
          | error e => exact h1

end

mutual

theorem classConsistent_disallow (cfg : Config) (thr : Bool) :
    ∀ (v : PyVal) (st : RegistryState),
    classConsistent cfg st → classConsistent cfg (disallowHelper cfg thr v st).2
  | .pylist xs, st, h => by
      have hm := classConsistent_disallowMany cfg xs st h
      simp only [disallowHelper]
      cases hx : disallowMany cfg xs st with
      | mk r st' =>
          rw [hx] at hm
          cases r with
          | ok ys => exact hm
          | error e => exact hm
  | .pytuple xs, st, h => by
      have hm := classConsistent_disallowMany cfg xs st h
      simp only [disallowHelper]
      cases hx : disallowMany cfg xs st with
      | mk r st' =>
          rw [hx] at hm
          cases r with
          | ok ys => exact hm
          | error e => exact hm
  | .obj o, st, h => by
      simp only [disallowHelper]
      by_cases hc : o.callable = true
      · rw [if_pos hc]
        by_cases ht : thr = true
        · rw [if_pos ht]
          cases hq : is_allowed cfg o st with
          | mk b st₁ =>
              have hs : (matAllowed cfg st).2 = st₁ := by
                rw [show (matAllowed cfg st).2 = (is_allowed cfg o st).2 from rfl, hq]
              have h₁ : classConsistent cfg st₁ := hs ▸ classConsistent_matAllowed h
              by_cases hb : b = true
              · rw [if_pos hb]
                exact classConsistent_disallow_obj o.oid h₁
              · rw [if_neg hb]
                exact h₁
        · rw [if_neg ht]
          exact classConsistent_disallow_obj o.oid h
      · rw [if_neg hc]
        exact h

theorem classConsistent_disallowMany (cfg : Config) :
    ∀ (xs : List PyVal) (st : RegistryState),
    classConsistent cfg st → classConsistent cfg (disallowMany cfg xs st).2
  | [], st, h => h
  | x :: xs, st, h => by
      have h1 := classConsistent_disallow cfg true x st h
      simp only [disallowMany]
      cases hx : disallowHelper cfg true x st with
      | mk r st' =>
          rw [hx] at h1
          cases r with
          | ok y =>
              have h2 := classConsistent_disallowMany cfg xs st' h1
              cases hx2 : disallowMany cfg xs st' with
              | mk r2 st'' =>
                  rw [hx2] at h2
                  simp only [hx2]
                  cases r2 with
                  | ok ys => exact h2
                  | error e => exact h2
          | error e => exact h1

end

mutual

/-- `forbid_in_graph` never touches either classification set. -/
theorem forbid_fields : ∀ (v : PyVal) (st : RegistryState),
    (forbid_in_graph v st).2.allowed = st.allowed ∧
    (forbid_in_graph v st).2.disallowed = st.disallowed
  | .pylist xs, st => by
      have hm := forbidMany_fields xs st
      simp only [forbid_in_graph]
      cases hx : forbidMany xs st with
      | mk r st' =>
          rw [hx] at hm
          cases r with
          | ok ys => exact hm
          | error e => exact hm
  | .pytuple xs, st => by
      have hm := forbidMany_fields xs st
      simp only [forbid_in_graph]
      cases hx : forbidMany xs st with
      | mk r st' =>
          rw [hx] at hm
          cases r with
          | ok ys => exact hm
          | error e => exact hm
  | .obj o, st => by
      simp only [forbid_in_graph]
      by_cases hc : o.callable = true
      · rw [if_pos hc]
        exact ⟨rfl, rfl⟩
      · rw [if_neg hc]
        exact ⟨rfl, rfl⟩

theorem forbidMany_fields : ∀ (xs : List PyVal) (st : RegistryState),
    (forbidMany xs st).2.allowed = st.allowed ∧
    (forbidMany xs st).2.disallowed = st.disallowed
  | [], st => ⟨rfl, rfl⟩
  | x :: xs, st => by
      have h1 := forbid_fields x st
      simp only [forbidMany]
      cases hx : forbid_in_graph x st with
      | mk r st' =>
          rw [hx] at h1
          cases r with
          | ok y =>
              have h2 := forbidMany_fields xs st'
              cases hx2 : forbidMany xs st' with
              | mk r2 st'' =>
                  rw [hx2] at h2
                  simp only [hx2]
                  cases r2 with
                  | ok ys => exact ⟨h2.1.trans h1.1, h2.2.trans h1.2⟩
                  | error e => exact ⟨h2.1.trans h1.1, h2.2.trans h1.2⟩
          | error e => exact h1

end

/-- States whose classification fields agree have the same views. -/
theorem classConsistent_of_fields_eq {cfg : Config} {st st' : RegistryState}
    (hA : st'.allowed = st.allowed) (hD : st'.disallowed = st.disallowed)
    (h : classConsistent cfg st) : classConsistent cfg st' := by
  intro i hi
  have hDv : disallowedView cfg st' = disallowedView cfg st :=
    disallowedView_congr hD
  have hAv : allowedView cfg st' = allowedView cfg st := by
    unfold allowedView
    rw [hA, hDv]
  rw [hAv, hDv] at hi
  exact h i hi

theorem classConsistent_forbid (cfg : Config) (v : PyVal) (st : RegistryState)
    (h : classConsistent cfg st) :
    classConsistent cfg (forbid_in_graph v st).2 :=
  classConsistent_of_fields_eq (forbid_fields v st).1 (forbid_fields v st).2 h

theorem classConsistent_torch_get_name (cfg : Config) (o : PyObj) (dflt : String)
    {st : RegistryState} (h : classConsistent cfg st) :
    classConsistent cfg (torch_get_name cfg o dflt st).2 := by
  have : (torch_get_name cfg o dflt st).2 = (matAllowed cfg st).2 := by
    show (allowedGetName cfg o.oid dflt st).2 = _
    cases hn : (matAllowed cfg st).2.allowed.function_names <;>
      simp [allowedGetName, hn]
  rw [this]
  exact classConsistent_matAllowed h

/-- Every reachable state satisfies the invariant. -/
theorem classConsistent_reachable {cfg : Config} (hwf : cfg.wf)
    {st : RegistryState} (hr : Reachable cfg st) : classConsistent cfg st := by
  induction hr with
  | start => exact classConsistent_start hwf
  | queryAllowed o _ ih => exact classConsistent_matAllowed ih
  | queryName o dflt _ ih => exact classConsistent_torch_get_name cfg o dflt ih
  | allowStep v _ ih => exact classConsistent_allow cfg v _ ih
  | disallowStep thr v _ ih => exact classConsistent_disallow cfg thr v _ ih
  | forbidStep v _ ih => exact classConsistent_forbid cfg v _ ih

/-! ### Helper characterizations of the public operations -/

theorem is_allowed_eq (cfg : Config) (o : PyObj) (st : RegistryState) :
    is_allowed cfg o st =
      (decide (o.oid ∈ allowedView cfg st) || o.isOpInstance,
        (matAllowed cfg st).2) := by
  simp only [is_allowed, matAllowed_fst]

theorem matAllowed_of_some {cfg : Config} {st : RegistryState} {ids : Finset Nat}
    (h : st.allowed.function_ids = some ids) : matAllowed cfg st = (ids, st) := by
  simp [matAllowed, h]

theorem allow_obj_eq (cfg : Config) (o : PyObj) (st : RegistryState)
    (hc : o.callable = true) :
    allow_in_graph cfg (.obj o) st =
      (.ok (.obj o), disallowedRemove cfg o.oid (allowedAdd cfg o.oid st)) := by
  simp only [allow_in_graph]
  rw [if_pos hc]

theorem disallow_obj_raise_eq (cfg : Config) (o : PyObj) (st : RegistryState)
    (hc : o.callable = true) (hna : (is_allowed cfg o st).1 = false) :
    disallow_in_graph cfg (.obj o) st =
      (.error (.incorrectUsage
        "disallow_in_graph is expected to be used on an already allowed callable (like torch.* ops). Allowed callables means callables that TorchDynamo puts as-is in the extracted graph."),
        (matAllowed cfg st).2) := by
  show disallowHelper cfg true (.obj o) st = _
  simp only [disallowHelper]
  rw [if_pos hc]
  simp only [if_true, hna, Bool.false_eq_true, if_false]
  rfl

theorem disallow_obj_success_eq (cfg : Config) (o : PyObj) (st : RegistryState)
    (hc : o.callable = true) (hal : (is_allowed cfg o st).1 = true) :
    disallow_in_graph cfg (.obj o) st =
      (.ok (.obj o),
        disallowedAdd cfg o.oid (allowedRemove cfg o.oid (matAllowed cfg st).2)) := by
  show disallowHelper cfg true (.obj o) st = _
  simp only [disallowHelper]
  rw [if_pos hc]
  simp only [if_true, hal, eq_self_iff_true]
  rfl

theorem disallow_nonstrict_obj_eq (cfg : Config) (o : PyObj) (st : RegistryState)
    (hc : o.callable = true) :
    disallowHelper cfg false (.obj o) st =
      (.ok (.obj o), disallowedAdd cfg o.oid (allowedRemove cfg o.oid st)) := by
  simp only [disallowHelper]
  rw [if_pos hc]
  simp only [Bool.false_eq_true, if_false]

theorem forbid_obj_eq (o : PyObj) (st : RegistryState) (hc : o.callable = true) :
    forbid_in_graph (.obj o) st =
      (.ok (.obj o), { st with forbiddenIds := insert o.oid st.forbiddenIds }) := by
  simp only [forbid_in_graph]
  rw [if_pos hc]

/-! ### Claim C1 -/

/-- C1: in every registry state reachable by any sequence of discovery,
allow, disallow and forbid operations (over a well-formed environment,
i.e. one where the two extra tracer predicates are not in the fixed
disallowed identity set), an identity is in at most one of the allowed set
and the disallowed set: materialization subtracts the disallowed contents,
`allow` adds to allowed and removes from disallowed, and `disallow` removes
from allowed and adds to disallowed, so explicit overrides always win. -/
theorem claim_C1_at_most_one_classification (cfg : Config) (hwf : cfg.wf)
    {st : RegistryState} (hr : Reachable cfg st) (f : PyObj) :
    ¬(f.oid ∈ allowedView cfg st ∧ f.oid ∈ disallowedView cfg st) :=
  classConsistent_reachable hwf hr f.oid

/-- Witness for C1 at a concrete environment and a concrete reachable
state (an `allow_in_graph` call from import time). -/
theorem claim_C1_witness :
    ¬(objA.oid ∈ allowedView cfgAB (allow_in_graph cfgAB (.obj objA) .start).2 ∧
      objA.oid ∈ disallowedView cfgAB (allow_in_graph cfgAB (.obj objA) .start).2) :=
  claim_C1_at_most_one_classification cfgAB
    (by intro p hp; simp [cfgAB] at hp)
    (Reachable.allowStep (.obj objA) Reachable.start) objA

/-! ### Claim C2 -/

/-- C2: for every finite namespace graph, including cyclic ones, the
discovery pass terminates and produces a finite identity-to-name mapping
(the fuel bound `g.ids.card + 1` never runs out, because discovery never
recurses into a namespace whose identity has already been recorded). -/
theorem claim_C2_discovery_terminates (g : NSGraph) (pol : List String) (root : Nat) :
    ∃ m : NameMap, findTorchObjects g pol root = some m :=
  findTorchObjects_isSome g pol root

/-! ### Claim C3 -/

/-- The claim fails on dispatch-wrapper instances: after
`allow_in_graph(f)` and then the non-strict disallow, `is_allowed(f)` is
still `true` for an `OpOverloadPacket`-typed callable, because `is_allowed`
tests `isinstance` regardless of the sets. -/
theorem claim_C3_counterexample :
    (is_allowed cfgEmpty objOp
      (disallowHelper cfgEmpty false (.obj objOp)
        (allow_in_graph cfgEmpty (.obj objOp) .start).2).2).1 = true := rfl

/-- C3 (amended): for every callable `f` that is not an instance of the
dispatch-wrapper types (`OpOverloadPacket` / `OpOverload` / `_OpNamespace`),
`allow(f)` followed by `disallow(f)` with `strict=false` leaves
`is_allowed(f) == false`; for dispatch-wrapper instances `is_allowed`
remains `true` regardless of the sets. -/
theorem claim_C3_allow_then_disallow (cfg : Config) (o : PyObj) (st : RegistryState)
    (hc : o.callable = true) (hop : o.isOpInstance = false) :
    (is_allowed cfg o
      (disallowHelper cfg false (.obj o)
        (allow_in_graph cfg (.obj o) st).2).2).1 = false := by
  rw [allow_obj_eq cfg o st hc]
  simp only
  rw [disallow_nonstrict_obj_eq cfg o _ hc]
  simp only
  rw [is_allowed_eq]
  simp only [hop, Bool.or_false]
  have hA : allowedView cfg
      (disallowedAdd cfg o.oid (allowedRemove cfg o.oid
        (disallowedRemove cfg o.oid (allowedAdd cfg o.oid st)))) =
      (allowedView cfg (disallowedRemove cfg o.oid (allowedAdd cfg o.oid st))).erase
        o.oid :=
    allowedView_of_allowed_eq (allowedRemove_spec cfg o.oid _).1
      (disallowedAdd_spec cfg o.oid _).2.1
  rw [hA]
  simp [Finset.not_mem_erase]

/-- Witness for the amended C3 at a concrete callable and environment. -/
theorem claim_C3_witness :
    (is_allowed cfgEmpty objA
      (disallowHelper cfgEmpty false (.obj objA)
        (allow_in_graph cfgEmpty (.obj objA) .start).2).2).1 = false :=
  claim_C3_allow_then_disallow cfgEmpty objA .start rfl rfl

/-! ### Claim C4 -/

/-- C4: strict disallow on a callable that is not currently allowed raises
`IncorrectUsage` and leaves the classification state unchanged: both set
contents, and the forbidden tags, are exactly as before (and if the allowed
set was already materialized, the whole state is bit-for-bit unchanged; the
only possible side effect of the raised call is lazy materialization, which
by the lemmas above never changes observable contents). -/
theorem claim_C4_strict_disallow_raises (cfg : Config) (o : PyObj)
    (st : RegistryState) (hc : o.callable = true)
    (hna : (is_allowed cfg o st).1 = false) :
    (disallow_in_graph cfg (.obj o) st).1 = .error (.incorrectUsage
      "disallow_in_graph is expected to be used on an already allowed callable (like torch.* ops). Allowed callables means callables that TorchDynamo puts as-is in the extracted graph.") ∧
    allowedView cfg (disallow_in_graph cfg (.obj o) st).2 = allowedView cfg st ∧
    disallowedView cfg (disallow_in_graph cfg (.obj o) st).2 =
      disallowedView cfg st ∧
    (disallow_in_graph cfg (.obj o) st).2.forbiddenIds = st.forbiddenIds ∧
    (st.allowed.function_ids.isSome = true →
      (disallow_in_graph cfg (.obj o) st).2 = st) := by
  rw [disallow_obj_raise_eq cfg o st hc hna]
  refine ⟨rfl, matAllowed_view_allowed cfg st, matAllowed_view_disallowed cfg st,
    matAllowed_forbidden cfg st, ?_⟩
  intro hmat
  cases h : st.allowed.function_ids with
  | none => rw [h] at hmat; simp at hmat
  | some ids => rw [matAllowed_of_some h]

/-- Witness for C4: strict disallow of a never-allowed callable in the
empty environment. -/
theorem claim_C4_witness :
    (disallow_in_graph cfgEmpty (.obj objA) .start).1 = .error (.incorrectUsage
      "disallow_in_graph is expected to be used on an already allowed callable (like torch.* ops). Allowed callables means callables that TorchDynamo puts as-is in the extracted graph.") ∧
    allowedView cfgEmpty (disallow_in_graph cfgEmpty (.obj objA) .start).2 =
      allowedView cfgEmpty .start ∧
    disallowedView cfgEmpty (disallow_in_graph cfgEmpty (.obj objA) .start).2 =
      disallowedView cfgEmpty .start ∧
    (disallow_in_graph cfgEmpty (.obj objA) .start).2.forbiddenIds =
      RegistryState.start.forbiddenIds ∧
    (RegistryState.start.allowed.function_ids.isSome = true →
      (disallow_in_graph cfgEmpty (.obj objA) .start).2 = .start) :=
  claim_C4_strict_disallow_raises cfgEmpty objA .start rfl (by decide)

/-! ### Claim C5 -/

/-- The claim fails: with ignore-list prefix `"torch.sub."`, the module
named `"torch.sub"` does not match the prefix (the check is on the
namespace's own name), so its child `f` is recorded with qualified name
`"torch.sub.f"` — which starts with the prefix — and ends up in the allowed
classification set. -/
theorem claim_C5_counterexample :
    "torch.sub." ∈ cfgC5.policy ∧
    dictFind (discoveredDict cfgC5) 2 = some "torch.sub.f" ∧
    strStartsWith "torch.sub.f" "torch.sub." = true ∧
    2 ∈ allowedView cfgC5 .start := by
  refine ⟨by decide, rfl, rfl, by decide⟩

/-- C5 (amended): a policy prefix prunes exactly the traversal of every
namespace whose own qualified name starts with it — visiting such a
namespace records nothing and skips its entire subtree.  Identities whose
qualified names extend the prefix can still be recorded when the recording
namespace's own name does not match it (e.g. a module named `A.sub` under
prefix `"A.sub."`), and a pruned namespace's identity is itself recorded by
its parent before the prune. -/
theorem claim_C5_policy_prunes_traversal (g : NSGraph) (pol : List String)
    (fuel nid : Nat) (acc : NameMap) (node : NSNode) (p : String)
    (hf : 0 < fuel) (hl : g.lookup nid = some node) (hp : p ∈ pol)
    (hsw : strStartsWith node.name p = true) :
    findAux g pol fuel nid acc = some acc := by
  cases fuel with
  | zero => omega
  | succ fuel =>
      rw [findAux_succ]
      simp only [hl]
      rw [if_pos (List.any_eq_true.mpr ⟨p, hp, hsw⟩)]

/-- Witness for the amended C5: traversal of the module whose name matches
the (no-trailing-dot) prefix `"torch.sub"` records nothing. -/
theorem claim_C5_witness :
    findAux gC5 ["torch.sub"] 3 1 [] = some [] :=
  claim_C5_policy_prunes_traversal gC5 ["torch.sub"] 3 1 []
    ⟨"torch.sub", [("f", .plain 2 (some "torch") false)]⟩ "torch.sub"
    (by decide) rfl (by decide) (by decide)

/-! ### Claim C6 -/

/-- The claim fails: on a `FunctionIdSet` whose lazy initializer returns a
plain identity set (exactly the shape of `_disallowed_function_ids`),
`function_names` stays `None`, and `get_name` hits `None.get`, raising
`AttributeError` instead of returning the default. -/
theorem claim_C6_counterexample :
    (FunctionIdSet.get_name (.set {0}) 0 "dflt" .fresh).1 =
      .error (.attributeError "NoneType object has no attribute get") ∧
    (FunctionIdSet.get_name (.set {0}) 0 "dflt" .fresh).1 ≠ .ok "dflt" := by
  refine ⟨rfl, ?_⟩
  intro h
  exact Except.noConfusion h

/-- C6 (amended): on a `FunctionIdSet` whose initializer returns a name
dict, `get_name` triggers materialization and returns the recorded name or
the supplied default, never raising; likewise on any instance whose names
dict is populated.  On an instance whose initializer returns a plain
identity set (such as the disallowed set), `get_name` instead fails with an
`AttributeError` (the names mapping is absent). -/
theorem claim_C6_get_name_behavior :
    (∀ (m : NameMap) (idx : Nat) (d : String),
      (FunctionIdSet.get_name (.dict m) idx d .fresh).1 =
        .ok (dictGetD m idx d)) ∧
    (∀ (v : InitValue) (m : NameMap) (idx : Nat) (d : String)
        (s : FunctionIdSet) (I : Finset Nat),
      s.function_ids = some I → s.function_names = some m →
      (FunctionIdSet.get_name v idx d s).1 = .ok (dictGetD m idx d)) ∧
    (∀ (S : Finset Nat) (idx : Nat) (d : String),
      (FunctionIdSet.get_name (.set S) idx d .fresh).1 =
        .error (.attributeError "NoneType object has no attribute get")) := by
  refine ⟨fun m idx d => rfl, ?_, fun S idx d => rfl⟩
  intro v m idx d s I hI hm
  simp [FunctionIdSet.get_name, FunctionIdSet.call, hI, hm]

/-- Witness for the amended C6 on a concrete materialized instance. -/
theorem claim_C6_witness :
    (FunctionIdSet.get_name (.set {5}) 1 "d" ⟨some {5}, some [(1, "n")]⟩).1 =
      .ok "n" := by
  have h := claim_C6_get_name_behavior.2.1 (.set {5}) [(1, "n")] 1 "d"
    ⟨some {5}, some [(1, "n")]⟩ {5} rfl rfl
  exact h.trans (by rfl)

/-! ### Claim C7 -/

/-- The claim fails: discovery records module 2 as `"torch.bar.baz"` (the
alias path) and then, on entering its traversal, overwrites the existing
entry with the module's own `__name__` `"torch.foo"`; the final mapping
does not keep the first recorded name. -/
theorem claim_C7_counterexample :
    findAux gC7 [] 3 2 [(0, "torch"), (1, "torch.bar"), (2, "torch.bar.baz")] =
      some [(0, "torch"), (1, "torch.bar"), (2, "torch.foo")] ∧
    dictFind [(0, "torch"), (1, "torch.bar"), (2, "torch.bar.baz")] 2 =
      some "torch.bar.baz" ∧
    dictFind ((findTorchObjects gC7 [] 0).getD []) 2 = some "torch.foo" ∧
    "torch.bar.baz" ≠ "torch.foo" := by
  refine ⟨rfl, rfl, rfl, by decide⟩

theorem foldl_childStep_none (g : NSGraph) (pol : List String) (fuel : Nat)
    (mname : String) (cs : List (String × PyChild)) :
    cs.foldl (childStep g pol fuel mname) none = none := by
  induction cs with
  | nil => rfl
  | cons c rest ih =>
      show rest.foldl _ (childStep g pol fuel mname none c) = none
      rw [show childStep g pol fuel mname none c = none from rfl]
      exact ih

/-- If nested discovery calls preserve every entry whose key is not a
module identity, so does the child loop: every insertion it performs is
either at a fresh key or at a module identity. -/
theorem foldl_childStep_preserves (g : NSGraph) (pol : List String) (fuel : Nat)
    (hA : ∀ nid acc r (i : Nat) (n : String), i ∉ g.ids → dictFind acc i = some n →
      findAux g pol fuel nid acc = some r → dictFind r i = some n) :
    ∀ (cs : List (String × PyChild)) (mname : String) (acc r : NameMap)
      (i : Nat) (n : String), i ∉ g.ids → dictFind acc i = some n →
      cs.foldl (childStep g pol fuel mname) (some acc) = some r →
      dictFind r i = some n := by
  intro cs
  induction cs with
  | nil =>
      intro mname acc r i n hig hacc hr
      cases hr
      exact hacc
  | cons c rest ihc =>
      intro mname acc r i n hig hacc hr
      obtain ⟨cname, cv⟩ := c
      rw [show (((cname, cv) :: rest).foldl (childStep g pol fuel mname) (some acc)) =
        rest.foldl (childStep g pol fuel mname)
          (childStep g pol fuel mname (some acc) (cname, cv)) from rfl] at hr
      have hkeyfresh : ∀ (k : Nat) (v : String), k ∉ dictKeys acc →
          dictFind (dictInsert acc k v) i = some n := by
        intro k v hk
        have hki : ¬(i = k) := by
          intro hik
          subst hik
          exact hk (dictFind_isSome_iff.mp (by rw [hacc]; rfl))
        rw [dictFind_dictInsert, if_neg hki]
        exact hacc
      have hkeymod : ∀ (k : Nat) (v : String), k ∈ g.ids →
          dictFind (dictInsert acc k v) i = some n := by
        intro k v hk
        have hki : ¬(i = k) := by
          intro hik
          subst hik
          exact hig hk
        rw [dictFind_dictInsert, if_neg hki]
        exact hacc
      cases cv with
      | module cnid =>
          by_cases hmem : dictMem acc cnid = true
          · rw [show childStep g pol fuel mname (some acc) (cname, .module cnid) =
                some acc by simp [childStep, PyChild.oid, hmem]] at hr
            exact ihc mname acc r i n hig hacc hr
          · rw [Bool.not_eq_true] at hmem
            cases hl : g.lookup cnid with
            | none =>
                rw [show childStep g pol fuel mname (some acc) (cname, .module cnid) =
                    some acc by simp [childStep, PyChild.oid, hmem, hl]] at hr
                exact ihc mname acc r i n hig hacc hr
            | some cnode =>
                by_cases hname : (strStartsWith cnode.name "torch." &&
                    allowedModulePrefixName cnode.name) = true
                · rw [show childStep g pol fuel mname (some acc) (cname, .module cnid) =
                      findAux g pol fuel cnid
                        (dictInsert acc cnid (mname ++ "." ++ cname)) by
                    simp [childStep, PyChild.oid, hmem, hl, hname]] at hr
                  cases hf : findAux g pol fuel cnid
                      (dictInsert acc cnid (mname ++ "." ++ cname)) with
                  | none =>
                      rw [hf, foldl_childStep_none] at hr
                      exact Option.noConfusion hr
                  | some r₁ =>
                      rw [hf] at hr
                      have h₁ : dictFind r₁ i = some n :=
                        hA cnid _ r₁ i n hig
                          (hkeymod cnid _ (NSGraph.lookup_mem_ids hl)) hf
                      exact ihc mname r₁ r i n hig h₁ hr
                · rw [show childStep g pol fuel mname (some acc) (cname, .module cnid) =
                      some acc by simp [childStep, PyChild.oid, hmem, hl, hname]] at hr
                  exact ihc mname acc r i n hig hacc hr
      | plain oid modName safeConst =>
          by_cases hmem : dictMem acc oid = true
          · rw [show childStep g pol fuel mname (some acc)
                (cname, .plain oid modName safeConst) = some acc by
              simp [childStep, PyChild.oid, hmem]] at hr
            exact ihc mname acc r i n hig hacc hr
          · rw [Bool.not_eq_true] at hmem
            have hfresh : oid ∉ dictKeys acc := by
              intro hk
              rw [dictMem_iff.mpr hk] at hmem
              exact Bool.true_eq_false.mp hmem
            by_cases h1 : allowedModulePrefixOpt modName = true
            · rw [show childStep g pol fuel mname (some acc)
                  (cname, .plain oid modName safeConst) =
                  some (dictInsert acc oid (mname ++ "." ++ cname)) by
                simp [childStep, PyChild.oid, hmem, h1]] at hr
              exact ihc mname _ r i n hig (hkeyfresh oid _ hfresh) hr
            · by_cases h2 : (modName.isNone && !safeConst) = true
              · rw [show childStep g pol fuel mname (some acc)
                    (cname, .plain oid modName safeConst) =
                    some (dictInsert acc oid (mname ++ "." ++ cname)) by
                  simp [childStep, PyChild.oid, hmem, h1, h2]] at hr
                exact ihc mname _ r i n hig (hkeyfresh oid _ hfresh) hr
              · rw [show childStep g pol fuel mname (some acc)
                    (cname, .plain oid modName safeConst) = some acc by
                  simp [childStep, PyChild.oid, hmem, h1, h2]] at hr
                exact ihc mname acc r i n hig hacc hr

/-- Discovery never changes the recorded name of an identity that is not a
namespace-module identity: the guarded child recordings only insert fresh
keys, and the unguarded recording at traversal entry only writes module
identities. -/
theorem findAux_preserves_nonmodule (g : NSGraph) (pol : List String) :
    ∀ (fuel nid : Nat) (acc r : NameMap) (i : Nat) (n : String),
      i ∉ g.ids → dictFind acc i = some n →
      findAux g pol fuel nid acc = some r → dictFind r i = some n := by
  intro fuel
  induction fuel with
  | zero =>
      intro nid acc r i n hig hacc hr
      rw [findAux_zero] at hr
      exact Option.noConfusion hr
  | succ fuel ih =>
      intro nid acc r i n hig hacc hr
      rw [findAux_succ] at hr
      cases hl : g.lookup nid with
      | none =>
          rw [hl] at hr
          cases hr
          exact hacc
      | some node =>
          rw [hl] at hr
          simp only at hr
          by_cases hpol : pol.any (fun p => strStartsWith node.name p) = true
          · rw [if_pos hpol] at hr
            cases hr
            exact hacc
          · rw [if_neg hpol] at hr
            have hfind : dictFind (dictInsert acc nid node.name) i = some n := by
              have hki : ¬(i = nid) := by
                intro hik
                subst hik
                exact hig (NSGraph.lookup_mem_ids hl)
              rw [dictFind_dictInsert, if_neg hki]
              exact hacc
            exact foldl_childStep_preserves g pol fuel ih node.dict node.name _ r
              i n hig hfind hr

/-- C7 (amended): for a materialized allowed set, `torch_get_name` returns
the supplied default when the identity is absent and the recorded name
when present; and discovery never overwrites the recorded name of a
non-namespace identity.  (A namespace-module identity first reached
through an alias binding is, however, re-recorded with its own
`__name__` when its traversal starts, so for modules the final name is the
module's own qualified name rather than the first alias recorded.) -/
theorem claim_C7_first_name_and_default :
    (∀ (cfg : Config) (st : RegistryState) (o : PyObj) (d : String)
        (I : Finset Nat) (m : NameMap),
      st.allowed.function_ids = some I → st.allowed.function_names = some m →
      dictKeys m = I →
      ((o.oid ∉ I → (torch_get_name cfg o d st).1 = .ok d) ∧
       (∀ nm, dictFind m o.oid = some nm →
          (torch_get_name cfg o d st).1 = .ok nm))) ∧
    (∀ (g : NSGraph) (pol : List String) (fuel nid : Nat) (acc r : NameMap)
        (i : Nat) (n : String),
      i ∉ g.ids → dictFind acc i = some n →
      findAux g pol fuel nid acc = some r → dictFind r i = some n) := by
  constructor
  · intro cfg st o d I m hI hm hkeys
    have hgn : (torch_get_name cfg o d st).1 = .ok (dictGetD m o.oid d) := by
      show (allowedGetName cfg o.oid d st).1 = _
      simp [allowedGetName, matAllowed_of_some hI, hm]
    constructor
    · intro habs
      rw [hgn]
      rw [dictGetD, dictFind_eq_none_of_not_mem (hkeys ▸ habs)]
      rfl
    · intro nm hnm
      rw [hgn, dictGetD, hnm]
      rfl
  · exact fun g pol => findAux_preserves_nonmodule g pol

/-- Witness for the amended C7: a concrete materialized lookup in both the
present and absent cases, and a concrete preserved non-module entry. -/
theorem claim_C7_witness :
    (torch_get_name cfgEmpty objA "dflt"
      ⟨⟨some {5}, some [(5, "torch.a")]⟩, .fresh, ∅⟩).1 = .ok "torch.a" ∧
    (torch_get_name cfgEmpty objB "dflt"
      ⟨⟨some {5}, some [(5, "torch.a")]⟩, .fresh, ∅⟩).1 = .ok "dflt" ∧
    dictFind ((findAux gC7 [] 1 2 [(100, "x")]).getD []) 100 = some "x" := by
  refine ⟨?_, ?_, ?_⟩
  · exact (claim_C7_first_name_and_default.1 cfgEmpty
      ⟨⟨some {5}, some [(5, "torch.a")]⟩, .fresh, ∅⟩ objA "dflt" {5}
      [(5, "torch.a")] rfl rfl (by decide)).2 "torch.a" rfl
  · exact (claim_C7_first_name_and_default.1 cfgEmpty
      ⟨⟨some {5}, some [(5, "torch.a")]⟩, .fresh, ∅⟩ objB "dflt" {5}
      [(5, "torch.a")] rfl rfl (by decide)).1 (by decide)
  · have h := claim_C7_first_name_and_default.2 gC7 [] 1 2 [(100, "x")]
      [(100, "x"), (2, "torch.foo")] 100 "x" (by decide) rfl rfl
    rw [show (findAux gC7 [] 1 2 [(100, "x")]).getD [] =
      [(100, "x"), (2, "torch.foo")] from rfl]
    exact h

/-! ### Claim C8 -/

/-- C8: `forbid_in_graph(f)` only attaches the `_dynamo_forbidden` tag to
`f` itself; both classification sets are untouched (field-for-field), and
`is_allowed` answers exactly as before for every object. -/
theorem claim_C8_forbid_independent (cfg : Config) (o : PyObj)
    (st : RegistryState) (hc : o.callable = true) :
    forbid_in_graph (.obj o) st =
      (.ok (.obj o), { st with forbiddenIds := insert o.oid st.forbiddenIds }) ∧
    (forbid_in_graph (.obj o) st).2.allowed = st.allowed ∧
    (forbid_in_graph (.obj o) st).2.disallowed = st.disallowed ∧
    ∀ o₂ : PyObj, (is_allowed cfg o₂ (forbid_in_graph (.obj o) st).2).1 =
      (is_allowed cfg o₂ st).1 := by
  have h1 := forbid_obj_eq o st hc
  refine ⟨h1, (forbid_fields (.obj o) st).1, (forbid_fields (.obj o) st).2, ?_⟩
  intro o₂
  rw [h1]
  rw [is_allowed_eq, is_allowed_eq]
  have hA : allowedView cfg { st with forbiddenIds := insert o.oid st.forbiddenIds } =
      allowedView cfg st := rfl
  rw [hA]

/-- Witness for C8 at a concrete callable and state. -/
theorem claim_C8_witness :
    forbid_in_graph (.obj objA) .start =
      (.ok (.obj objA),
        { RegistryState.start with forbiddenIds := insert objA.oid ∅ }) ∧
    (forbid_in_graph (.obj objA) .start).2.allowed =
      RegistryState.start.allowed ∧
    (forbid_in_graph (.obj objA) .start).2.disallowed =
      RegistryState.start.disallowed ∧
    ∀ o₂ : PyObj, (is_allowed cfgEmpty o₂ (forbid_in_graph (.obj objA) .start).2).1 =
      (is_allowed cfgEmpty o₂ .start).1 :=
  claim_C8_forbid_independent cfgEmpty objA .start rfl

/-! ### Claim C9 -/

theorem state_set_allowed_ids_self {st : RegistryState} {x : Option (Finset Nat)}
    (h : st.allowed.function_ids = x) :
    ({ st with allowed := { st.allowed with function_ids := x } } :
      RegistryState) = st := by
  cases st with
  | mk a d f =>
      cases a with
      | mk ai an =>
          cases h
          rfl

theorem state_set_disallowed_self (st : RegistryState) :
    ({ st with disallowed := st.disallowed } : RegistryState) = st := by
  cases st
  rfl

/-- C9: `allow_in_graph` is idempotent on a callable: the second
application returns the same callable and leaves the state bit-for-bit
equal to the state after the first application, so `is_allowed` agrees on
every object. -/
theorem claim_C9_allow_idempotent (cfg : Config) (o : PyObj)
    (st : RegistryState) (hc : o.callable = true) :
    allow_in_graph cfg (.obj o) ((allow_in_graph cfg (.obj o) st).2) =
      (.ok (.obj o), (allow_in_graph cfg (.obj o) st).2) ∧
    ∀ o₂ : PyObj,
      (is_allowed cfg o₂
        (allow_in_graph cfg (.obj o) ((allow_in_graph cfg (.obj o) st).2)).2).1 =
      (is_allowed cfg o₂ (allow_in_graph cfg (.obj o) st).2).1 := by
  rw [allow_obj_eq cfg o st hc]
  simp only
  set st₁ := disallowedRemove cfg o.oid (allowedAdd cfg o.oid st) with hst₁
  have h₁ : st₁.allowed.function_ids =
      some (insert o.oid (allowedView cfg st)) := by
    rw [hst₁, (disallowedRemove_spec cfg o.oid (allowedAdd cfg o.oid st)).2.1]
    exact (allowedAdd_spec cfg o.oid st).1
  have h₂ : st₁.disallowed.function_ids =
      some ((disallowedView cfg (allowedAdd cfg o.oid st)).erase o.oid) := by
    rw [hst₁]
    exact (disallowedRemove_spec cfg o.oid (allowedAdd cfg o.oid st)).1
  have hm : matAllowed cfg st₁ = (insert o.oid (allowedView cfg st), st₁) :=
    matAllowed_of_some h₁
  have hadd : allowedAdd cfg o.oid st₁ = st₁ := by
    simp only [allowedAdd, hm]
    rw [Finset.insert_idem]
    exact state_set_allowed_ids_self h₁
  have hrem : FunctionIdSet.remove (.set cfg.disallowedInit) o.oid
      st₁.disallowed = st₁.disallowed := by
    simp [FunctionIdSet.remove, FunctionIdSet.call, h₂, Finset.not_mem_erase]
  have hdis : disallowedRemove cfg o.oid st₁ = st₁ := by
    simp only [disallowedRemove, hrem]
  have hmain : allow_in_graph cfg (.obj o) st₁ = (.ok (.obj o), st₁) := by
    simp only [allow_obj_eq cfg o st₁ hc, hadd, hdis]
  exact ⟨hmain, fun o₂ => by rw [hmain]⟩

/-- Witness for C9 at a concrete callable and environment. -/
theorem claim_C9_witness :
    allow_in_graph cfgEmpty (.obj objA)
        ((allow_in_graph cfgEmpty (.obj objA) .start).2) =
      (.ok (.obj objA), (allow_in_graph cfgEmpty (.obj objA) .start).2) ∧
    ∀ o₂ : PyObj,
      (is_allowed cfgEmpty o₂
        (allow_in_graph cfgEmpty (.obj objA)
          ((allow_in_graph cfgEmpty (.obj objA) .start).2)).2).1 =
      (is_allowed cfgEmpty o₂ (allow_in_graph cfgEmpty (.obj objA) .start).2).1 :=
  claim_C9_allow_idempotent cfgEmpty objA .start rfl

/-! ### Claim C10 -/

theorem allow_tuple_eq_list (cfg : Config) (xs : List PyVal) (st : RegistryState) :
    allow_in_graph cfg (.pytuple xs) st = allow_in_graph cfg (.pylist xs) st := by
  simp only [allow_in_graph]

theorem disallow_tuple_eq_list (cfg : Config) (thr : Bool) (xs : List PyVal)
    (st : RegistryState) :
    disallowHelper cfg thr (.pytuple xs) st = disallowHelper cfg thr (.pylist xs) st := by
  simp only [disallowHelper]

theorem forbid_tuple_eq_list (xs : List PyVal) (st : RegistryState) :
    forbid_in_graph (.pytuple xs) st = forbid_in_graph (.pylist xs) st := by
  simp only [forbid_in_graph]

/-- `allowMany` over a list of callables applies the single-callable
operation element-wise and returns the same elements. -/
theorem allowMany_map_obj (cfg : Config) : ∀ (os : List PyObj) (st : RegistryState),
    (∀ o ∈ os, o.callable = true) →
    allowMany cfg (os.map PyVal.obj) st =
      (.ok (os.map PyVal.obj),
       os.foldl (fun s o => (allow_in_graph cfg (.obj o) s).2) st)
  | [], st, _ => rfl
  | o :: os, st, h => by
      have hc : o.callable = true := h o (List.mem_cons_self o os)
      have ho := allow_obj_eq cfg o st hc
      simp only [List.map_cons, allowMany, ho]
      rw [allowMany_map_obj cfg os _
        (fun o' ho' => h o' (List.mem_cons_of_mem o ho'))]
      simp only [List.foldl_cons, ho]

/-- `forbidMany` over a list of callables applies the single-callable
operation element-wise and returns the same elements. -/
theorem forbidMany_map_obj : ∀ (os : List PyObj) (st : RegistryState),
    (∀ o ∈ os, o.callable = true) →
    forbidMany (os.map PyVal.obj) st =
      (.ok (os.map PyVal.obj),
       os.foldl (fun s o => (forbid_in_graph (.obj o) s).2) st)
  | [], st, _ => rfl
  | o :: os, st, h => by
      have hc : o.callable = true := h o (List.mem_cons_self o os)
      have ho := forbid_obj_eq o st hc
      simp only [List.map_cons, forbidMany, ho]
      rw [forbidMany_map_obj os _
        (fun o' ho' => h o' (List.mem_cons_of_mem o ho'))]
      simp only [List.foldl_cons, ho]

theorem is_allowed_true_of_mem {cfg : Config} {o : PyObj} {st : RegistryState}
    (h : o.oid ∈ allowedView cfg st) : (is_allowed cfg o st).1 = true := by
  rw [is_allowed_eq]
  simp [h]

/-- The allowed view after a successful single disallow: the identity is
erased. -/
theorem disallow_obj_success_view (cfg : Config) (o : PyObj) (st : RegistryState)
    (hc : o.callable = true) (hal : o.oid ∈ allowedView cfg st) :
    allowedView cfg (disallow_in_graph cfg (.obj o) st).2 =
      (allowedView cfg st).erase o.oid := by
  rw [disallow_obj_success_eq cfg o st hc (is_allowed_true_of_mem hal)]
  have h1 : allowedView cfg (disallowedAdd cfg o.oid
      (allowedRemove cfg o.oid (matAllowed cfg st).2)) =
      (allowedView cfg (matAllowed cfg st).2).erase o.oid :=
    allowedView_of_allowed_eq (allowedRemove_spec cfg o.oid (matAllowed cfg st).2).1
      (disallowedAdd_spec cfg o.oid _).2.1
  rw [h1, matAllowed_view_allowed]

/-- `disallowMany` over a list of distinct, currently-allowed callables
applies the strict single-callable operation element-wise (none of them
raises) and returns the same elements. -/
theorem disallowMany_map_obj (cfg : Config) : ∀ (os : List PyObj) (st : RegistryState),
    (∀ o ∈ os, o.callable = true) → (∀ o ∈ os, o.oid ∈ allowedView cfg st) →
    (os.map PyObj.oid).Nodup →
    disallowMany cfg (os.map PyVal.obj) st =
      (.ok (os.map PyVal.obj),
       os.foldl (fun s o => (disallow_in_graph cfg (.obj o) s).2) st)
  | [], st, _, _, _ => rfl
  | o :: os, st, h, hal, hnd => by
      have hc : o.callable = true := h o (List.mem_cons_self o os)
      have hmem : o.oid ∈ allowedView cfg st := hal o (List.mem_cons_self o os)
      have ho := disallow_obj_success_eq cfg o st hc (is_allowed_true_of_mem hmem)
      have hview := disallow_obj_success_view cfg o st hc hmem
      rw [ho] at hview
      simp only [List.map_cons, disallowMany,
        show disallowHelper cfg true (.obj o) st = disallow_in_graph cfg (.obj o) st
          from rfl, ho]
      have hnd' : (os.map PyObj.oid).Nodup := (List.nodup_cons.mp hnd).2
      have hne : ∀ o' ∈ os, o'.oid ≠ o.oid := by
        intro o' ho' he
        exact (List.nodup_cons.mp hnd).1 (he ▸ List.mem_map_of_mem PyObj.oid ho')
      have hal' : ∀ o' ∈ os, o'.oid ∈ allowedView cfg
          (disallowedAdd cfg o.oid (allowedRemove cfg o.oid (matAllowed cfg st).2)) := by
        intro o' ho'
        rw [hview]
        exact Finset.mem_erase.mpr ⟨hne o' ho', hal o' (List.mem_cons_of_mem o ho')⟩
      rw [disallowMany_map_obj cfg os _
        (fun o' ho' => h o' (List.mem_cons_of_mem o ho')) hal' hnd']
      simp only [List.foldl_cons,
        show disallow_in_graph cfg (.obj o) st =
          (.ok (.obj o),
            disallowedAdd cfg o.oid (allowedRemove cfg o.oid (matAllowed cfg st).2))
          from ho]

/-- The claim fails on the sequence kind: a `tuple` argument comes back as
a `list` (the list comprehension result), not as the same sequence kind. -/
theorem claim_C10_counterexample :
    (allow_in_graph cfgEmpty (.pytuple [.obj objA]) .start).1 =
      .ok (.pylist [.obj objA]) ∧
    (∀ ys : List PyVal, PyVal.pylist ys ≠ PyVal.pytuple [.obj objA]) := by
  refine ⟨rfl, ?_⟩
  intro ys h
  exact PyVal.noConfusion h

/-- C10 (amended): each entry point treats a `tuple` argument exactly like
a `list` argument; a single callable is returned itself; over a sequence of
callables each entry point applies the corresponding single-callable
operation element-wise (for `disallow_in_graph` with the same strict
semantics, so on distinct currently-allowed callables none of them raises)
and returns the same elements — but as a `list`, also when the input was a
`tuple`. -/
theorem claim_C10_sequence_elementwise :
    (∀ (cfg : Config) (xs : List PyVal) (st : RegistryState),
      allow_in_graph cfg (.pytuple xs) st = allow_in_graph cfg (.pylist xs) st ∧
      disallowHelper cfg true (.pytuple xs) st =
        disallowHelper cfg true (.pylist xs) st ∧
      forbid_in_graph (.pytuple xs) st = forbid_in_graph (.pylist xs) st) ∧
    (∀ (cfg : Config) (o : PyObj) (st : RegistryState), o.callable = true →
      (allow_in_graph cfg (.obj o) st).1 = .ok (.obj o) ∧
      (forbid_in_graph (.obj o) st).1 = .ok (.obj o) ∧
      ((is_allowed cfg o st).1 = true →
        (disallow_in_graph cfg (.obj o) st).1 = .ok (.obj o))) ∧
    (∀ (cfg : Config) (os : List PyObj) (st : RegistryState),
      (∀ o ∈ os, o.callable = true) →
      allow_in_graph cfg (.pylist (os.map PyVal.obj)) st =
        (.ok (.pylist (os.map PyVal.obj)),
         os.foldl (fun s o => (allow_in_graph cfg (.obj o) s).2) st) ∧
      forbid_in_graph (.pylist (os.map PyVal.obj)) st =
        (.ok (.pylist (os.map PyVal.obj)),
         os.foldl (fun s o => (forbid_in_graph (.obj o) s).2) st)) ∧
    (∀ (cfg : Config) (os : List PyObj) (st : RegistryState),
      (∀ o ∈ os, o.callable = true) →
      (∀ o ∈ os, o.oid ∈ allowedView cfg st) →
      (os.map PyObj.oid).Nodup →
      disallow_in_graph cfg (.pylist (os.map PyVal.obj)) st =
        (.ok (.pylist (os.map PyVal.obj)),
         os.foldl (fun s o => (disallow_in_graph cfg (.obj o) s).2) st)) := by
  refine ⟨?_, ?_, ?_, ?_⟩
  · intro cfg xs st
    exact ⟨allow_tuple_eq_list cfg xs st, disallow_tuple_eq_list cfg true xs st,
      forbid_tuple_eq_list xs st⟩
  · intro cfg o st hc
    refine ⟨by rw [allow_obj_eq cfg o st hc], by rw [forbid_obj_eq o st hc], ?_⟩
    intro hal
    rw [disallow_obj_success_eq cfg o st hc hal]
  · intro cfg os st h
    constructor
    · simp only [allow_in_graph, allowMany_map_obj cfg os st h]
    · simp only [forbid_in_graph, forbidMany_map_obj os st h]
  · intro cfg os st h hal hnd
    show disallowHelper cfg true (.pylist (os.map PyVal.obj)) st = _
    simp only [disallowHelper, disallowMany_map_obj cfg os st h hal hnd]

/-- Witness for the amended C10: strict element-wise disallow of two
distinct callables that discovery classified Allowed. -/
theorem claim_C10_witness :
    disallow_in_graph cfgAB (.pylist ([objA, objB].map PyVal.obj)) .start =
      (.ok (.pylist ([objA, objB].map PyVal.obj)),
       [objA, objB].foldl (fun s o => (disallow_in_graph cfgAB (.obj o) s).2)
         .start) :=
  claim_C10_sequence_elementwise.2.2.2 cfgAB [objA, objB] .start
    (by decide) (by decide) (by decide)

end AllowedFunctions
